import Mathlib

/-!
# twget: a verification development

A shallow embedding of `main.go` of `dacci/twget` together with the parts of the Go
standard library it calls (`strconv.ParseInt`, `time`, `path.Ext`), followed by
theorems about the identifier-derived timestamp, the archive scan, the resume window,
the idempotent download, the container patch value and the start-up validation.

Conventions.
* Go `int64`/`uint64` values are `Int`/`Nat`; where Go arithmetic may wrap the wrap is
  written out (`wrapInt64`, `wrapUint64`).
* A Go string is a Lean `String`; `strconv` and `path` walk its bytes, here its
  characters.  Every byte of a non-ASCII character is at least `0x80`, and so is the
  code of the character, and both walks treat such a value the same way.
* A Go `(value, error)` pair is a pair with an `Option` error, so that a value that
  comes together with an error (as for `strconv.ErrRange`) is kept.
* The standard library follows the Go 1.20 - 1.22 sources (the program needs
  `time.DateOnly`, added in Go 1.20).
-/

namespace Twget

/-! ## Machine integers -/

/-- The `int64` that holds the exact result `x` after two's-complement wrap-around. -/
def wrapInt64 (x : Int) : Int :=
  (x + 9223372036854775808) % 18446744073709551616 - 9223372036854775808

/-- The `uint64` that holds the exact result `x` after wrap-around. -/
def wrapUint64 (x : Int) : Nat :=
  (x % 18446744073709551616).toNat

/-! ## `strconv.ParseInt` -/

/-- The two sentinel errors of `strconv`. -/
inductive NumError where
  | ErrSyntax
  | ErrRange
deriving DecidableEq, Repr

/-- Largest `uint64`. -/
def maxUint64 : Nat := 18446744073709551615

/-- The byte `lower(c)` of `strconv`: `c | ('x' - 'X')`. -/
def lower (c : Nat) : Nat := c ||| 32

/-- The digit value the loop of `strconv.ParseUint` gives a byte (base 10, so an
underscore is not skipped); `none` is the `default:` branch of its switch. -/
def digitOf (c : Nat) : Option Nat :=
  if 48 ≤ c ∧ c ≤ 57 then some (c - 48)
  else if 97 ≤ lower c ∧ lower c ≤ 122 then some (lower c - 97 + 10)
  else none

/-- The loop of `strconv.ParseUint(s, 10, 64)` over the remaining bytes, `n` being the
value accumulated so far.  `cutoff = maxUint64/10 + 1` and `maxVal = 1<<64 - 1`. -/
def parseUintLoop : List Char → Nat → Nat × Option NumError
  | [], n => (n, none)
  | c :: cs, n =>
    match digitOf c.toNat with
    | none => (0, some NumError.ErrSyntax)
    | some d =>
      if d ≥ 10 then (0, some NumError.ErrSyntax)
      else if n ≥ maxUint64 / 10 + 1 then (maxUint64, some NumError.ErrRange)
      else
        let n10 := (n * 10) % 18446744073709551616
        let n1 := (n10 + d) % 18446744073709551616
        if n1 < n10 ∨ n1 > maxUint64 then (maxUint64, some NumError.ErrRange)
        else parseUintLoop cs n1

/-- Go `strconv.ParseUint(s, 10, 64)` on the bytes of `s`. -/
def ParseUint (s : List Char) : Nat × Option NumError :=
  match s with
  | [] => (0, some NumError.ErrSyntax)
  | _ => parseUintLoop s 0

/-- Go `strconv.ParseInt(s, 10, 64)`: an optional sign, then `ParseUint`; a syntax error
gives `0`, a range error the nearest `int64`. -/
def ParseInt (s : String) : Int × Option NumError :=
  match s.toList with
  | [] => (0, some NumError.ErrSyntax)
  | c :: cs =>
    let neg : Bool := c = '-'
    let body : List Char := if c = '+' ∨ c = '-' then cs else c :: cs
    match ParseUint body with
    | (_, some NumError.ErrSyntax) => (0, some NumError.ErrSyntax)
    | (un, _) =>
      if neg = false ∧ un ≥ 9223372036854775808 then
        (9223372036854775807, some NumError.ErrRange)
      else if neg = true ∧ un > 9223372036854775808 then
        (-9223372036854775808, some NumError.ErrRange)
      else
        let n := wrapInt64 un
        (if neg then wrapInt64 (-n) else n, none)

/-! ## `time`: locations -/

/-- A `time.Location`: the offset (seconds east of UTC) in force before the first
transition, and the transitions `(when, offset)` in ascending order of `when` (Unix
seconds).  `time.UTC` and `time.FixedZone` have no transition.  The `extend` rule string
of a location loaded from the zone database is not modelled. -/
structure Location where
  first : Int
  tx : List (Int × Int)
deriving DecidableEq, Repr

/-- The location `time.UTC`. -/
def UTC : Location := ⟨0, []⟩

/-- Start of time for `lookup`: `alpha = -1 << 63`. -/
def alpha : Int := -9223372036854775808

/-- End of time for `lookup`: `omega = 1<<63 - 1`. -/
def omegaEnd : Int := 9223372036854775807

/-- The search of `Location.lookup` for the last transition at or before `sec`, run from
the front: `cur` is `(offset, start, end)` of the zone found so far. -/
def lookupFrom : List (Int × Int) → Int → Int × Int × Int → Int × Int × Int
  | [], _, cur => cur
  | (w, off) :: rest, sec, (o, s, _) =>
    if sec < w then (o, s, w) else lookupFrom rest sec (off, w, omegaEnd)

/-- Go `(*Location).lookup(sec)`: `(offset, start, end)` of the zone in force at the
instant `sec`. -/
def Location.lookup (l : Location) (sec : Int) : Int × Int × Int :=
  lookupFrom l.tx sec (l.first, alpha, omegaEnd)

/-! ## `time`: instants and the calendar -/

/-- A `time.Time`: an instant (`sec` seconds and `nsec` nanoseconds after the Unix epoch)
and the location it is shown in. -/
structure Time where
  sec : Int
  nsec : Int
  loc : Location
deriving DecidableEq, Repr

/-- Go `time.Unix(sec, nsec)` shown in the location `loc` (Go uses `time.Local`). -/
def Unix (sec nsec : Int) (loc : Location) : Time :=
  if nsec < 0 ∨ nsec ≥ 1000000000 then
    let n := Int.tdiv nsec 1000000000
    let sec1 := wrapInt64 (sec + n)
    let nsec1 := nsec - n * 1000000000
    if nsec1 < 0 then ⟨wrapInt64 (sec1 - 1), nsec1 + 1000000000, loc⟩
    else ⟨sec1, nsec1, loc⟩
  else ⟨sec, nsec, loc⟩

/-- Go `time.UnixMilli(msec)`: `Unix(msec/1e3, (msec%1e3)*1e6)`, Go's `/` and `%`
truncating toward zero. -/
def UnixMilli (msec : Int) (loc : Location) : Time :=
  Unix (Int.tdiv msec 1000) (Int.tmod msec 1000 * 1000000) loc

/-- Go `t.Before(u)`. -/
def Time.Before (t u : Time) : Bool :=
  decide (t.sec < u.sec ∨ (t.sec = u.sec ∧ t.nsec < u.nsec))

/-- Go `t.After(u)`. -/
def Time.After (t u : Time) : Bool :=
  decide (t.sec > u.sec ∨ (t.sec = u.sec ∧ t.nsec > u.nsec))

/-- Go `t.Equal(u)`: the same instant, whatever the locations. -/
def Time.Equal (t u : Time) : Bool :=
  decide (t.sec = u.sec ∧ t.nsec = u.nsec)

/-- Nanoseconds of the instant after the Unix epoch, exactly. -/
def Time.unixNano (t : Time) : Int := t.sec * 1000000000 + t.nsec

/-- `unixToInternal + internalToAbsolute`: seconds from the absolute epoch of `time`
(1 January of the year -292277022399) to the Unix epoch. -/
def unixToAbsolute : Int := 9223372028715321600

/-- `absoluteZeroYear` of `time`. -/
def absoluteZeroYear : Int := -292277022399

/-- Go `t.abs()`: seconds of the local wall clock since the absolute epoch, a `uint64`. -/
def Time.abs (t : Time) : Nat :=
  wrapUint64 (t.sec + (t.loc.lookup t.sec).1 + unixToAbsolute)

/-- Go `isLeap(year)`; Go's `%` truncates toward zero. -/
def isLeap (year : Int) : Bool :=
  decide (Int.tmod year 4 = 0 ∧ (Int.tmod year 100 ≠ 0 ∨ Int.tmod year 400 = 0))

/-- The table `daysBefore` of `time`: days of a non-leap year before month `m + 1`. -/
def daysBefore : Nat → Nat
  | 0 => 0
  | 1 => 31
  | 2 => 59
  | 3 => 90
  | 4 => 120
  | 5 => 151
  | 6 => 181
  | 7 => 212
  | 8 => 243
  | 9 => 273
  | 10 => 304
  | 11 => 334
  | _ => 365

/-- The first half of Go `absDate(abs, true)`: the year and the zero-based day of the
year, by cutting off 400-, 100-, 4- and 1-year cycles. -/
def absYearDay (abs : Nat) : Int × Nat :=
  let d := abs / 86400
  let n400 := d / 146097
  let d1 := d - 146097 * n400
  let n100 := d1 / 36524
  let n100c := n100 - (n100 >>> 2)
  let d2 := d1 - 36524 * n100c
  let n4 := d2 / 1461
  let d3 := d2 - 1461 * n4
  let n1 := d3 / 365
  let n1c := n1 - (n1 >>> 2)
  let d4 := d3 - 365 * n1c
  let y := 400 * n400 + 100 * n100c + 4 * n4 + n1c
  ((y : Int) + absoluteZeroYear, d4)

/-- The second half of Go `absDate(abs, true)`: month (1..12) and day of the month from
the year's leapness and the zero-based day of the year. -/
def monthDay (leap : Bool) (yday : Nat) : Nat × Nat :=
  if leap ∧ yday = 59 then (2, 29)
  else
    let day := if leap ∧ yday > 59 then yday - 1 else yday
    let month := day / 31
    let e := daysBefore (month + 1)
    if day ≥ e then (month + 2, day - e + 1)
    else (month + 1, day - daysBefore month + 1)

/-- Go `absDate(abs, true)`: `(year, month, day)`. -/
def absDate (abs : Nat) : Int × Nat × Nat :=
  let yd := absYearDay abs
  let md := monthDay (isLeap yd.1) yd.2
  (yd.1, md.1, md.2)

/-- Go `t.Date()`: year, month and day of `t` in its own location. -/
def Time.Date (t : Time) : Int × Nat × Nat := absDate t.abs

/-- Go `t.Clock()`: hour, minute and second of `t` in its own location. -/
def Time.Clock (t : Time) : Nat × Nat × Nat :=
  let s := t.abs % 86400
  let hour := s / 3600
  let s1 := s - hour * 3600
  let min := s1 / 60
  (hour, min, s1 - min * 60)

/-- Go `norm(hi, lo, base)`: brings `lo` into `[0, base)`, carrying into `hi`. -/
def norm (hi lo base : Int) : Int × Int :=
  let p : Int × Int :=
    if lo < 0 then
      let n := Int.tdiv (-lo - 1) base + 1
      (hi - n, lo + n * base)
    else (hi, lo)
  if p.2 ≥ base then
    let n := Int.tdiv p.2 base
    (p.1 + n, p.2 - n * base)
  else p

/-- Go `daysSinceEpoch(year)`: days from the absolute epoch to 1 January of `year`. -/
def daysSinceEpoch (year : Int) : Nat :=
  let y := wrapUint64 (year - absoluteZeroYear)
  let n400 := y / 400
  let y1 := y - 400 * n400
  let n100 := y1 / 100
  let y2 := y1 - 100 * n100
  let n4 := y2 / 4
  let y3 := y2 - 4 * n4
  (146097 * n400 + 36524 * n100 + 1461 * n4 + 365 * y3) % 18446744073709551616

/-- Go `time.Date(year, month, day, hour, min, sec, nsec, loc)`.  A wall-clock time that
the location skips or repeats is resolved as the Go source does: the offset in force at
the wall-clock reading taken as UTC is tried first, and when the instant it gives lies
outside that zone's period the offset is looked up again at that instant. -/
def Date (year month day hour min sec nsec : Int) (loc : Location) : Time :=
  let ym := norm year (month - 1) 12
  let year := ym.1
  let month := ym.2 + 1
  let sn := norm sec nsec 1000000000
  let ms := norm min sn.1 60
  let hm := norm hour ms.1 60
  let dh := norm day hm.1 24
  let d0 := daysSinceEpoch year + daysBefore (month - 1).toNat
  let d1 := if isLeap year ∧ month ≥ 3 then d0 + 1 else d0
  let d := wrapUint64 ((d1 : Int) + (dh.1 - 1))
  let abs := wrapUint64 ((d : Int) * 86400 + (dh.2 * 3600 + hm.2 * 60 + ms.2))
  let unix := wrapInt64 (wrapInt64 abs - unixToAbsolute)
  let z := loc.lookup unix
  let unix1 :=
    if z.1 ≠ 0 then
      let utc := wrapInt64 (unix - z.1)
      let off := if utc < z.2.1 ∨ utc ≥ z.2.2 then (loc.lookup utc).1 else z.1
      wrapInt64 (unix - off)
    else unix
  ⟨unix1, sn.2, loc⟩

/-- Go `t.AddDate(years, months, days)`. -/
def Time.AddDate (t : Time) (years months days : Int) : Time :=
  let ymd := t.Date
  let hms := t.Clock
  Twget.Date (ymd.1 + years) ((ymd.2.1 : Int) + months) ((ymd.2.2 : Int) + days)
    hms.1 hms.2.1 hms.2.2 t.nsec t.loc

/-- Go `appendInt(b, x, width)` of `time`: the decimal digits of `x`, zero-padded to
`width`, after a minus sign when `x` is negative. -/
def appendInt (x : Int) (width : Nat) : String :=
  let digits := Nat.repr x.natAbs
  (if x < 0 then "-" else "") ++ String.mk (List.replicate (width - digits.length) '0') ++ digits

/-- The layout `time.DateOnly` ("2006-01-02") applied to a year, month and day. -/
def formatDateOnly (ymd : Int × Nat × Nat) : String :=
  appendInt ymd.1 4 ++ "-" ++ appendInt ymd.2.1 2 ++ "-" ++ appendInt ymd.2.2 2

/-- Go `t.Format(time.DateOnly)`. -/
def Time.Format (t : Time) : String := formatDateOnly t.Date

/-- A `time.Duration` bound: `minDuration = -1 << 63`. -/
def minDuration : Int := -9223372036854775808

/-- A `time.Duration` bound: `maxDuration = 1<<63 - 1`. -/
def maxDuration : Int := 9223372036854775807

/-- Go `t.Add(d)`, `d` a duration in nanoseconds; `/` and `%` truncate toward zero. -/
def Time.Add (t : Time) (d : Int) : Time :=
  let dsec := Int.tdiv d 1000000000
  let nsec := t.nsec + Int.tmod d 1000000000
  if nsec ≥ 1000000000 then ⟨t.sec + (dsec + 1), nsec - 1000000000, t.loc⟩
  else if nsec < 0 then ⟨t.sec + (dsec - 1), nsec + 1000000000, t.loc⟩
  else ⟨t.sec + dsec, nsec, t.loc⟩

/-- Go `t.Sub(u)` for times without a monotonic reading: the difference computed in
`int64` nanoseconds, kept when adding it back to `u` gives `t`, and otherwise replaced by
the nearest duration bound. -/
def Time.Sub (t u : Time) : Int :=
  let d := wrapInt64 ((t.sec - u.sec) * 1000000000 + (t.nsec - u.nsec))
  if (u.Add d).Equal t then d
  else if t.Before u then minDuration
  else maxDuration

/-- Go `d.Seconds()` followed by the conversion to an integer, which drops the
fraction.  `Seconds` returns the `float64` `float64(d/Second) + float64(d%Second)/1e9`:
the whole seconds are below `2^53` in magnitude and so exact, and the fraction added to
them has magnitude below one, so the integer part is `d / Second`, truncated toward zero,
provided the fraction is not so close to one that the sum rounds up (a fraction of at most
`0.999`, as for a time with whole milliseconds, is not). -/
def Duration.wholeSeconds (d : Int) : Int := Int.tdiv d 1000000000

/-! ## The program's state and its surroundings -/

/-- The fields of a parsed `url.URL` the program reads or writes; `rest` stands for the
others (scheme, host, fragment). -/
structure URL where
  Path : String
  RawQuery : String
  rest : String
deriving DecidableEq, Repr

/-- The type `Media`. -/
structure Media where
  id : String
  url : Option URL
  ts : Time
deriving DecidableEq, Repr

/-- The movie header box of `mp4ff`: its two time fields, and the rest of the box. -/
structure Mvhd where
  CreationTime : Nat
  ModificationTime : Nat
  other : List Nat
deriving DecidableEq, Repr

/-- The movie box of `mp4ff`; the pointer to its header may be nil. -/
structure Moov where
  Mvhd : Option Mvhd
  other : List Nat
deriving DecidableEq, Repr

/-- A parsed `mp4.File`; the pointer to its movie box may be nil. -/
structure MP4File where
  Moov : Option Moov
  other : List Nat
deriving DecidableEq, Repr

/-- An HTTP response body: the bytes `io.Copy` delivers, and the error that ends the
copy early, if any. -/
structure Body where
  data : List Nat
  copyErr : Option String
deriving DecidableEq, Repr

/-- What a path names in the file system. -/
inductive Node where
  | file (data : List Nat) (atime mtime : Time)
  | dir
  | inaccessible (err : String)
deriving DecidableEq, Repr

/-- An `fs.DirEntry` of `os.ReadDir`: `Info` is the result of `e.Info()`, reduced to the
modification time. -/
structure DirEntry where
  Name : String
  IsDir : Bool
  Info : Except String Time

/-- A media item of a tweet (`twitterscraper.Photo`, `twitterscraper.Video`). -/
structure Item where
  ID : String
  URL : String
deriving DecidableEq, Repr

/-- A `twitterscraper.TweetResult`, reduced to the fields the program reads. -/
structure Tweet where
  Error : Option String
  IsRetweet : Bool
  Photos : List Item
  Videos : List Item
deriving DecidableEq, Repr

/-- The command-line flags, which the program keeps in global variables (`until` is a
reserved word here, so the two date flags carry an underscore). -/
structure Flags where
  output : String
  decremental : Bool
  incremental : Bool
  since_ : String
  until_ : String
  limit : Int
deriving DecidableEq, Repr

/-- An effect on the outside world, in the order the program performs them.  `enter` marks
a call of `processUser` and records the two mode flags it runs under. -/
inductive Event where
  | login
  | mkdirAll (dir : String)
  | enter (user : String) (decremental incremental : Bool)
  | readDir (dir : String)
  | search (terms : List (String × String)) (limit : Int)
  | stat (name : String)
  | logged (msg : String)
  | get (url : String)
  | create (name : String)
  | readMP4 (name : String)
  | writeMP4 (name : String)
  | chtimes (name : String) (t : Time)
deriving DecidableEq, Repr

/-- The mutable world: what each path names, and the effects performed so far. -/
structure World where
  files : List (String × Node)
  trace : List Event
deriving DecidableEq, Repr

/-- The libraries and services the program calls whose code is outside the repository,
as parameters. -/
structure Env where
  /-- The location `time.Local` of the process. -/
  Local : Location
  /-- Wall-clock time given to a file that is written. -/
  now : Time
  /-- Go `url.Parse`; `none` is the nil URL returned with an error. -/
  urlParse : String → Option URL
  /-- The `RawQuery` after `q := u.Query(); q.Set("name", "orig"); q.Encode()`. -/
  queryWithOrig : String → String
  /-- Go `u.String()`. -/
  urlString : URL → String
  /-- Go `path.Join(a, b)`. -/
  pathJoin : String → String → String
  /-- Go `client.Get(url)`. -/
  httpGet : String → Except String Body
  /-- The error of `os.Create(name)`, if it fails. -/
  createErr : String → Option String
  /-- The decoder of `mp4.ReadMP4File`, applied to the bytes of the file. -/
  decodeMP4 : List Nat → Except String MP4File
  /-- The encoder of `mp4.WriteToFile`: the bytes written, and the error that ends the
  write early, if any. -/
  encodeMP4 : MP4File → Body
  /-- Go `os.ReadDir(dir)` in a given state of the file system. -/
  readDir : List (String × Node) → String → Except String (List DirEntry)
  /-- The tweets `scraper.SearchTweets` yields for the non-empty query terms. -/
  searchTweets : List (String × String) → Int → List Tweet
  /-- The error of `login()`, if it fails. -/
  loginErr : Option String
  /-- The error of `os.MkdirAll(dir, 0777)`, if it fails. -/
  mkdirErr : String → Option String

/-- How a Go function ends when it does not return normally: with an error value, or
with a nil-pointer panic. -/
inductive Fault where
  | error (msg : String)
  | nilDeref
deriving DecidableEq, Repr

/-- Adds an effect to the trace. -/
def World.emit (w : World) (e : Event) : World :=
  { w with trace := w.trace ++ [e] }

/-- Makes `name` name `node`. -/
def World.put (w : World) (name : String) (node : Node) : World :=
  { w with files := (name, node) :: w.files.filter (fun p => p.1 != name) }

/-! ## `main.go`: media and their timestamps -/

/-- The function `newMedia`: both parse errors are discarded (`u, _ :=`, `n, _ :=`), and
`n>>22` is the arithmetic shift of an `int64`. -/
def newMedia (env : Env) (id rawURL : String) : Media :=
  let u := env.urlParse rawURL
  let n := (ParseInt id).1
  { id := id, url := u, ts := UnixMilli (wrapInt64 ((n >>> (22 : Nat)) + 1288834974657)) env.Local }

/-- The variable `mvhdEpoch`. -/
def mvhdEpoch : Time := Date 1904 1 1 0 0 0 0 UTC

/-- The value `uint64(m.ts.Sub(mvhdEpoch).Seconds())` that `processVideo` writes. -/
def mvhdSeconds (m : Media) : Nat :=
  wrapUint64 (Duration.wholeSeconds (m.ts.Sub mvhdEpoch))

/-- The loop of Go `path.Ext` from the last byte backwards: `acc` is the suffix already
passed. -/
def extLoop : List Char → List Char → List Char
  | [], _ => []
  | c :: rest, acc =>
    if c = '/' then [] else if c = '.' then c :: acc else extLoop rest (c :: acc)

/-- Go `path.Ext(path)`: the suffix from the last dot of the last path element. -/
def Ext (path : String) : String := String.mk (extLoop path.toList.reverse [])

/-! ## `main.go`: the fetch pipeline -/

/-- The method `Media.download`.  The result is Go's `(*string, error)`: `ok none` is
`nil, nil` (already archived), `ok (some name)` a new file. -/
def download (env : Env) (flags : Flags) (m : Media) (w : World) :
    Except Fault (Option String) × World :=
  match m.url with
  | none => (Except.error Fault.nilDeref, w)
  | some u =>
    let name := env.pathJoin flags.output (m.id ++ Ext u.Path)
    let w1 := w.emit (Event.stat name)
    match w.files.lookup name with
    | some (Node.inaccessible e) => (Except.error (Fault.error e), w1)
    | some _ => (Except.ok none, w1.emit (Event.logged ("`" ++ name ++ "` already exists")))
    | none =>
      let w2 := (w1.emit (Event.logged ("downloading `" ++ name ++ "`"))).emit
        (Event.get (env.urlString u))
      match env.httpGet (env.urlString u) with
      | Except.error e => (Except.error (Fault.error e), w2)
      | Except.ok body =>
        let w3 := w2.emit (Event.create name)
        match env.createErr name with
        | some e => (Except.error (Fault.error e), w3)
        | none =>
          let w4 := w3.put name (Node.file body.data env.now env.now)
          match body.copyErr with
          | some e => (Except.error (Fault.error e), w4)
          | none => (Except.ok (some name), w4)

/-- The method `Media.processPhoto`. -/
def processPhoto (env : Env) (flags : Flags) (m : Media) (w : World) :
    Except Fault (Option String) × World :=
  match m.url with
  | none => (Except.error Fault.nilDeref, w)
  | some u =>
    download env flags { m with url := some { u with RawQuery := env.queryWithOrig u.RawQuery } } w

/-- The method `Media.processVideo`. -/
def processVideo (env : Env) (flags : Flags) (m : Media) (w : World) :
    Except Fault (Option String) × World :=
  match download env flags m w with
  | (Except.error f, w1) => (Except.error f, w1)
  | (Except.ok none, w1) => (Except.ok none, w1)
  | (Except.ok (some name), w1) =>
    let w2 := w1.emit (Event.readMP4 name)
    match w1.files.lookup name with
    | some (Node.file data _ _) =>
      match env.decodeMP4 data with
      | Except.error e => (Except.error (Fault.error e), w2)
      | Except.ok f =>
        let ts := mvhdSeconds m
        match f.Moov with
        | none => (Except.error Fault.nilDeref, w2)
        | some moov =>
          match moov.Mvhd with
          | none => (Except.error Fault.nilDeref, w2)
          | some h =>
            let h1 : Mvhd := { h with CreationTime := ts, ModificationTime := ts }
            let moov1 : Moov := { moov with Mvhd := some h1 }
            let f1 : MP4File := { f with Moov := some moov1 }
            let w3 := w2.emit (Event.writeMP4 name)
            match env.createErr name with
            | some e => (Except.error (Fault.error e), w3)
            | none =>
              let out := env.encodeMP4 f1
              let w4 := w3.put name (Node.file out.data env.now env.now)
              match out.copyErr with
              | some e => (Except.error (Fault.error e), w4)
              | none => (Except.ok (some name), w4)
    | _ => (Except.error (Fault.error "open: not a regular file"), w2)

/-- The method `Media.fixTimestamp`: `os.Chtimes(name, m.ts, m.ts)`. -/
def fixTimestamp (m : Media) (name : String) (w : World) : Option String × World :=
  let w1 := w.emit (Event.chtimes name m.ts)
  match w.files.lookup name with
  | some (Node.file data _ _) => (none, w1.put name (Node.file data m.ts m.ts))
  | some Node.dir => (none, w1)
  | some (Node.inaccessible e) => (some e, w1)
  | none => (some "chtimes: no such file or directory", w1)

/-- One of the two inner loops of `processUser`, over `tweet.Photos` (`video = false`) or
`tweet.Videos` (`video = true`); `some f` is the early `return err` (or a panic). -/
def processItems (env : Env) (flags : Flags) (video : Bool) :
    List Item → World → Option Fault × World
  | [], w => (none, w)
  | it :: rest, w =>
    let m := newMedia env it.ID it.URL
    match (if video then processVideo env flags m w else processPhoto env flags m w) with
    | (Except.error f, w1) => (some f, w1)
    | (Except.ok none, w1) => processItems env flags video rest w1
    | (Except.ok (some name), w1) =>
      match fixTimestamp m name w1 with
      | (some e, w2) => (some (Fault.error e), w2)
      | (none, w2) => processItems env flags video rest w2

/-- The loop of `processUser` over the tweets the search yields. -/
def processTweets (env : Env) (flags : Flags) : List Tweet → World → Option Fault × World
  | [], w => (none, w)
  | tw :: rest, w =>
    match tw.Error with
    | some e => (some (Fault.error e), w)
    | none =>
      if tw.IsRetweet then processTweets env flags rest w
      else
        match processItems env flags false tw.Photos w with
        | (some f, w1) => (some f, w1)
        | (none, w1) =>
          match processItems env flags true tw.Videos w1 with
          | (some f, w2) => (some f, w2)
          | (none, w2) => processTweets env flags rest w2

/-! ## `main.go`: the archive scan and the resume window -/

/-- The loop of `findOldest` over the directory entries. -/
def findOldestLoop : List DirEntry → Option Time → Except String (Option Time)
  | [], oldest => Except.ok oldest
  | e :: rest, oldest =>
    if e.IsDir then findOldestLoop rest oldest
    else
      match e.Info with
      | Except.error err => Except.error err
      | Except.ok t =>
        match oldest with
        | none => findOldestLoop rest (some t)
        | some o => if t.Before o then findOldestLoop rest (some t) else findOldestLoop rest (some o)

/-- The loop of `findNewest` over the directory entries. -/
def findNewestLoop : List DirEntry → Option Time → Except String (Option Time)
  | [], newest => Except.ok newest
  | e :: rest, newest =>
    if e.IsDir then findNewestLoop rest newest
    else
      match e.Info with
      | Except.error err => Except.error err
      | Except.ok t =>
        match newest with
        | none => findNewestLoop rest (some t)
        | some o => if t.After o then findNewestLoop rest (some t) else findNewestLoop rest (some o)

/-- The function `findOldest`, on a result of `os.ReadDir(*output)`. -/
def findOldest (listing : Except String (List DirEntry)) : Except String (Option Time) :=
  match listing with
  | Except.error e => Except.error e
  | Except.ok ee => findOldestLoop ee none

/-- The function `findNewest`, on a result of `os.ReadDir(*output)`. -/
def findNewest (listing : Except String (List DirEntry)) : Except String (Option Time) :=
  match listing with
  | Except.error e => Except.error e
  | Except.ok ee => findNewestLoop ee none

/-- The first part of `processUser`: the map `q`, as the list of its entries, from the
mode flags and the listing of the output directory. -/
def planQuery (flags : Flags) (user : String) (listing : Except String (List DirEntry)) :
    Except String (List (String × String)) :=
  let q := [("from", user), ("filter", "media")]
  if flags.decremental ∨ flags.incremental then
    if flags.decremental then
      match findOldest listing with
      | Except.error e => Except.error e
      | Except.ok none => Except.ok q
      | Except.ok (some t) =>
        let ymd := t.Date
        Except.ok (q ++ [("until",
          ((Date ymd.1 ymd.2.1 ymd.2.2 0 0 0 0 t.loc).AddDate 0 0 1).Format)])
    else
      match findNewest listing with
      | Except.error e => Except.error e
      | Except.ok none => Except.ok q
      | Except.ok (some t) => Except.ok (q ++ [("since", t.Format)])
  else Except.ok (q ++ [("since", flags.since_), ("until", flags.until_)])

/-- The function `processUser`.  The query string joins the entries of `q` with a
non-empty value in the unspecified order of a Go map iteration; the search is given the
entries themselves. -/
def processUser (env : Env) (flags : Flags) (user : String) (w : World) :
    Option Fault × World :=
  let w0 := w.emit (Event.enter user flags.decremental flags.incremental)
  let w1 := if flags.decremental ∨ flags.incremental then w0.emit (Event.readDir flags.output)
    else w0
  match planQuery flags user (env.readDir w.files flags.output) with
  | Except.error e => (some (Fault.error e), w1)
  | Except.ok q =>
    let terms := q.filter (fun kv => kv.2 != "")
    processTweets env flags (env.searchTweets terms flags.limit)
      (w1.emit (Event.search terms flags.limit))

/-! ## `main.go`: start-up -/

/-- How the process ends. -/
inductive Exit where
  | ok
  | fatal (msg : String)
  | panic
deriving DecidableEq, Repr

/-- The loop of `main` over the account names. -/
def runUsers (env : Env) (flags : Flags) (baseDir : String) :
    List String → World → Exit × World
  | [], w => (Exit.ok, w)
  | user :: rest, w =>
    let flags1 := { flags with output := env.pathJoin baseDir user }
    let w1 := w.emit (Event.mkdirAll flags1.output)
    match env.mkdirErr flags1.output with
    | some e => (Exit.fatal e, w1)
    | none =>
      match processUser env flags1 user w1 with
      | (some (Fault.error e), w2) => (Exit.fatal e, w2)
      | (some Fault.nilDeref, w2) => (Exit.panic, w2)
      | (none, w2) => runUsers env flags baseDir rest w2

/-- The function `main`, after `flag.Parse()`. -/
def main (env : Env) (flags : Flags) (args : List String) (w : World) : Exit × World :=
  if flags.decremental ∧ flags.incremental then
    (Exit.fatal "both --decremental and --incremental is specified", w)
  else
    let w1 := w.emit Event.login
    match env.loginErr with
    | some e => (Exit.fatal e, w1)
    | none => runUsers env flags flags.output args w1

/-! ## Spec-side notions -/

/-- A byte that is a decimal digit. -/
def IsDigit (c : Char) : Prop := 48 ≤ c.toNat ∧ c.toNat ≤ 57

instance (c : Char) : Decidable (IsDigit c) := by unfold IsDigit; infer_instance

/-- The number a list of decimal digits denotes, continuing from `acc`. -/
def decimalFrom : List Char → Nat → Nat
  | [], acc => acc
  | c :: cs, acc => decimalFrom cs (acc * 10 + (c.toNat - 48))

/-- The string `s` is a decimal representation of `n`: one or more decimal digits,
leading zeros allowed, denoting `n`. -/
def IsDecimalOf (s : String) (n : Nat) : Prop :=
  s.toList ≠ [] ∧ (∀ c ∈ s.toList, IsDigit c) ∧ decimalFrom s.toList 0 = n

instance (s : String) (n : Nat) : Decidable (IsDecimalOf s n) := by
  unfold IsDecimalOf; infer_instance

/-! ## Spec-side calendar -/

/-- The Gregorian leap-year rule. -/
def leapYear (y : Int) : Bool := decide (y % 4 = 0 ∧ (y % 100 ≠ 0 ∨ y % 400 = 0))

/-- Number of days of month `m` (1..12) of year `y`. -/
def daysInMonth (y : Int) (m : Nat) : Nat :=
  if m = 2 then (if leapYear y then 29 else 28)
  else if m = 4 ∨ m = 6 ∨ m = 9 ∨ m = 11 then 30
  else 31

/-- The calendar day after `(year, month, day)`: the next day of the month, or the first
day of the next month after the last day of a month, or 1 January of the next year after
31 December. -/
def nextCalendarDay (ymd : Int × Nat × Nat) : Int × Nat × Nat :=
  if ymd.2.2 < daysInMonth ymd.1 ymd.2.1 then (ymd.1, ymd.2.1, ymd.2.2 + 1)
  else if ymd.2.1 < 12 then (ymd.1, ymd.2.1 + 1, 1)
  else (ymd.1 + 1, 1, 1)

/-- Number of days of month `m` (1..12) in a leap or a common year. -/
def monthLength (leap : Bool) (m : Nat) : Nat :=
  if m = 2 then (if leap then 29 else 28)
  else if m = 4 ∨ m = 6 ∨ m = 9 ∨ m = 11 then 30
  else 31

/-! ## Spec-side notions for the absolute calendar of `time` -/

/-- Days from the absolute epoch to the start of the absolute year `Y` (years counted
from the absolute zero year, which is the first year of a 400-year cycle). -/
def daysBeforeYear (Y : Nat) : Nat := 365 * Y + Y / 4 - Y / 100 + Y / 400

/-- Length of the absolute year `Y`. -/
def yearLength (Y : Nat) : Nat :=
  if Y % 4 = 3 ∧ (Y % 100 ≠ 99 ∨ Y % 400 = 399) then 366 else 365

/-! ## Spec-side notions for the archive scan -/

/-- The modification time of a directory entry that is a plain file. -/
def plainFileTime (e : DirEntry) : Option Time :=
  if e.IsDir then none
  else
    match e.Info with
    | Except.ok t => some t
    | Except.error _ => none

/-- The modification times of the plain files of a listing, in listing order. -/
def plainFileTimes (ee : List DirEntry) : List Time := ee.filterMap plainFileTime

/-- Every plain file of the listing has a modification time (`e.Info()` succeeds). -/
def Listable (ee : List DirEntry) : Prop :=
  ∀ e ∈ ee, e.IsDir = false → ∃ t, e.Info = Except.ok t

/-- A directory entry for a plain file with the given modification time. -/
def fileEntry (name : String) (mtime : Time) : DirEntry := ⟨name, false, Except.ok mtime⟩

/-- A directory entry for a sub-directory. -/
def dirEntry (name : String) : DirEntry := ⟨name, true, Except.error "not read"⟩

/-- The instant 2023-05-10T00:00:00Z. -/
def may10 : Time := ⟨1683676800, 0, UTC⟩

/-- Flags selecting the decremental mode only. -/
def decFlags : Flags := ⟨"out", true, false, "", "", 100⟩

/-- Flags selecting the incremental mode only. -/
def incFlags : Flags := ⟨"out", false, true, "", "", 100⟩

/-- The zone of Havana around March 2023: UTC-5 until 2023-03-12T05:00:00Z, when the
clocks go from 00:00 to 01:00 local time, then UTC-4 until 2023-11-05T05:00:00Z. -/
def havana : Location := ⟨-18000, [(1678597200, -14400), (1699160400, -18000)]⟩

/-- The instant 2023-03-12T19:00:00Z, which is 15:00 on 12 March in Havana. -/
def march12Havana : Time := ⟨1678647600, 0, havana⟩

/-! ## A concrete environment, for evaluating the program on examples -/

/-- An environment in which every outside service succeeds: the process runs in UTC,
every non-empty string parses as a URL whose path is the string itself, every download
delivers three bytes, and every file decodes as a container with a movie header. -/
def demoEnv : Env where
  Local := UTC
  now := ⟨1700000000, 0, UTC⟩
  urlParse := fun s => if s = "" then none else some ⟨s, "", ""⟩
  queryWithOrig := fun _ => "name=orig"
  urlString := fun u => u.Path ++ "?" ++ u.RawQuery
  pathJoin := fun a b => a ++ "/" ++ b
  httpGet := fun _ => Except.ok ⟨[1, 2, 3], none⟩
  createErr := fun _ => none
  decodeMP4 := fun data => Except.ok ⟨some ⟨some ⟨0, 0, []⟩, []⟩, data⟩
  encodeMP4 := fun f =>
    match f.Moov with
    | some ⟨some h, _⟩ => ⟨[h.CreationTime, h.ModificationTime], none⟩
    | _ => ⟨[], none⟩
  readDir := fun _ _ => Except.ok []
  searchTweets := fun _ _ => []
  loginErr := none
  mkdirErr := fun _ => none

/-! ## Spec-side notions for the fetch pipeline and the start-up -/

/-- Whether an effect is a network transfer (`client.Get`). -/
def Event.isGet : Event → Bool
  | Event.get _ => true
  | _ => false

/-- Number of network transfers performed so far. -/
def transfers (w : World) : Nat := (w.trace.filter Event.isGet).length

/-- The path `download` gives the file of an item whose URL has path `urlPath`. -/
def targetName (env : Env) (flags : Flags) (id urlPath : String) : String :=
  env.pathJoin flags.output (id ++ Ext urlPath)

/-- The world after `download` has found the target in place: the `os.Stat` and the log
line, and nothing else. -/
def skipped (w : World) (name : String) : World :=
  (w.emit (Event.stat name)).emit (Event.logged ("`" ++ name ++ "` already exists"))

/-- Whether an effect is a call of `processUser` with both modes selected. -/
def Event.conflicting : Event → Bool
  | Event.enter _ true true => true
  | _ => false

/-- Every effect of `w'` is an effect of `w` or is not a call of `processUser` with both
modes selected. -/
def Grows (w w' : World) : Prop := ∀ e ∈ w'.trace, e ∈ w.trace ∨ e.conflicting = false

/-- An empty world. -/
def emptyWorld : World := ⟨[], []⟩

/-- The environment `demoEnv` with a search that yields one tweet with one photo whose
id is not a number. -/
def badIdEnv : Env :=
  { demoEnv with
    searchTweets := fun _ _ => [⟨none, false, [⟨"not-a-number", "https://img.example/a.jpg"⟩], []⟩] }

/-- The container `f`, whose movie box is `moov` with header `h`, after both time fields
of the header are set to `ts`; nothing else changes. -/
def setHeaderTimes (f : MP4File) (moov : Moov) (h : Mvhd) (ts : Nat) : MP4File :=
  let h1 : Mvhd := { h with CreationTime := ts, ModificationTime := ts }
  let moov1 : Moov := { moov with Mvhd := some h1 }
  { f with Moov := some moov1 }

/-- Flags selecting neither resume mode, with no explicit bounds. -/
def plainFlags : Flags := ⟨"out", false, false, "", "", 100⟩

/-! ## Theorems -/

set_option maxRecDepth 100000

theorem wrapInt64_bounds (x : Int) :
    -9223372036854775808 ≤ wrapInt64 x ∧ wrapInt64 x ≤ 9223372036854775807 := by
  unfold wrapInt64; omega

theorem wrapInt64_of_range (x : Int) (h1 : -9223372036854775808 ≤ x)
    (h2 : x ≤ 9223372036854775807) : wrapInt64 x = x := by
  unfold wrapInt64; omega

theorem decimalFrom_ge (cs : List Char) (acc : Nat) : acc ≤ decimalFrom cs acc := by
  induction cs generalizing acc with
  | nil => simp [decimalFrom]
  | cons c cs ih =>
    have := ih (acc * 10 + (c.toNat - 48))
    simp only [decimalFrom]
    omega

theorem digitOf_digit (c : Char) (h : IsDigit c) :
    digitOf c.toNat = some (c.toNat - 48) ∧ c.toNat - 48 < 10 := by
  unfold IsDigit at h
  unfold digitOf
  rw [if_pos h]
  exact ⟨rfl, by omega⟩

/-- On decimal digits the loop of `ParseUint` returns the number they denote, or
`maxUint64` with `ErrRange` when that number does not fit. -/
theorem parseUintLoop_digits (cs : List Char) (n : Nat) (hcs : ∀ c ∈ cs, IsDigit c)
    (hn : n ≤ maxUint64) :
    parseUintLoop cs n =
      if decimalFrom cs n ≤ maxUint64 then (decimalFrom cs n, none)
      else (maxUint64, some NumError.ErrRange) := by
  induction cs generalizing n with
  | nil => simp [parseUintLoop, decimalFrom, hn]
  | cons c cs ih =>
    have hc : IsDigit c := hcs c (by simp)
    have hrest : ∀ c ∈ cs, IsDigit c := fun x hx => hcs x (by simp [hx])
    obtain ⟨hd, hlt⟩ := digitOf_digit c hc
    have hge := decimalFrom_ge cs (n * 10 + (c.toNat - 48))
    simp only [parseUintLoop, hd, decimalFrom]
    unfold maxUint64 at *
    rw [if_neg (by omega)]
    by_cases h1 : n ≥ 18446744073709551615 / 10 + 1
    · rw [if_pos h1, if_neg (by omega)]
    · rw [if_neg h1]
      by_cases h2 : n * 10 + (c.toNat - 48) ≤ 18446744073709551615
      · have e1 : (n * 10) % 18446744073709551616 = n * 10 := by omega
        have e2 : (n * 10 % 18446744073709551616 + (c.toNat - 48)) % 18446744073709551616
            = n * 10 + (c.toNat - 48) := by omega
        have e3 : (n * 10 + (c.toNat - 48)) % 18446744073709551616
            = n * 10 + (c.toNat - 48) := by omega
        simp only [e2, e1, e3]
        rw [if_neg (by omega)]
        exact ih _ hrest h2
      · have e1 : (n * 10) % 18446744073709551616 = n * 10 := by omega
        simp only [e1]
        rw [if_pos (by omega), if_neg (by omega)]

theorem ParseInt_bounds (s : String) :
    -9223372036854775808 ≤ (ParseInt s).1 ∧ (ParseInt s).1 ≤ 9223372036854775807 := by
  unfold ParseInt
  split
  · simp
  · dsimp only
    split
    · simp
    · split
      · simp
      · split
        · simp
        · dsimp only
          split
          · exact wrapInt64_bounds _
          · exact wrapInt64_bounds _

/-- On a decimal representation of `n`, `ParseInt` returns `n` when `n` is an `int64`
and the largest `int64` (with `ErrRange`) otherwise. -/
theorem ParseInt_decimal (s : String) (n : Nat) (h : IsDecimalOf s n) :
    ParseInt s = if n ≤ 9223372036854775807 then ((n : Int), none)
      else (9223372036854775807, some NumError.ErrRange) := by
  obtain ⟨hne, hdig, hval⟩ := h
  unfold ParseInt
  cases hs : s.toList with
  | nil => exact absurd hs hne
  | cons c cs =>
    rw [hs] at hdig hval
    have hc : IsDigit c := hdig c (by simp)
    have hplus : c ≠ '+' := by
      intro hp; rw [hp] at hc; exact absurd hc (by decide)
    have hminus : c ≠ '-' := by
      intro hp; rw [hp] at hc; exact absurd hc (by decide)
    have hloop := parseUintLoop_digits (c :: cs) 0 hdig (by decide)
    rw [hval] at hloop
    simp only [hplus, hminus, or_self, if_false, decide_False, ParseUint, hloop]
    unfold maxUint64
    by_cases h1 : n ≤ 18446744073709551615
    · rw [if_pos h1]
      by_cases h2 : n ≤ 9223372036854775807
      · have : wrapInt64 (n : Int) = n := wrapInt64_of_range _ (by omega) (by omega)
        simp [h2, this]
        omega
      · simp [h2]
        omega
    · rw [if_neg h1]
      have h2 : ¬ n ≤ 9223372036854775807 := by omega
      simp [h2]

theorem tdiv_tmod_spec (a b : Int) (hb : 0 < b) :
    a = b * Int.tdiv a b + Int.tmod a b ∧
    (0 ≤ a → 0 ≤ Int.tmod a b ∧ Int.tmod a b < b) ∧
    (a ≤ 0 → -b < Int.tmod a b ∧ Int.tmod a b ≤ 0) := by
  refine ⟨(Int.tdiv_add_tmod a b).symm, fun ha => ⟨Int.tmod_nonneg b ha, Int.tmod_lt_of_pos a hb⟩,
    fun ha => ?_⟩
  have h1 := Int.tmod_nonneg (a := -a) b (by omega)
  have h2 := Int.tmod_lt_of_pos (-a) hb
  rw [Int.tmod_def, Int.neg_tdiv] at h1 h2
  rw [Int.tmod_def]
  constructor <;> linarith

/-- `time.UnixMilli` on a millisecond count far from the `int64` bounds: the seconds are
the floor of `ms / 1000`, the nanoseconds the remainder. -/
theorem UnixMilli_spec (ms : Int) (loc : Location)
    (h1 : -4611686018427387904 ≤ ms) (h2 : ms ≤ 4611686018427387904) :
    UnixMilli ms loc = ⟨ms / 1000, ms % 1000 * 1000000, loc⟩ := by
  obtain ⟨e1, p1, n1⟩ := tdiv_tmod_spec ms 1000 (by norm_num)
  obtain ⟨e2, p2, n2⟩ := tdiv_tmod_spec (Int.tmod ms 1000 * 1000000) 1000000000 (by norm_num)
  unfold UnixMilli Unix
  generalize Int.tdiv (Int.tmod ms 1000 * 1000000) 1000000000 = q2 at *
  generalize Int.tmod (Int.tmod ms 1000 * 1000000) 1000000000 = r2 at *
  generalize Int.tdiv ms 1000 = q at *
  generalize Int.tmod ms 1000 = r at *
  unfold wrapInt64
  by_cases hr : r < 0
  · have hq2 : q2 = 0 := by omega
    subst hq2
    rw [if_pos (by omega)]
    simp only []
    rw [if_pos (by omega)]
    congr 1 <;> omega
  · rw [if_neg (by omega)]
    congr 1 <;> omega

theorem mvhdEpoch_eq : mvhdEpoch = ⟨-2082844800, 0, UTC⟩ := by decide

/-- The timestamp `newMedia` derives, in terms of the value `ParseInt` returns. -/
theorem newMedia_ts (env : Env) (id rawURL : String) :
    (newMedia env id rawURL).ts =
      ⟨((ParseInt id).1 / 4194304 + 1288834974657) / 1000,
       ((ParseInt id).1 / 4194304 + 1288834974657) % 1000 * 1000000, env.Local⟩ := by
  obtain ⟨b1, b2⟩ := ParseInt_bounds id
  unfold newMedia
  simp only []
  rw [Int.shiftRight_eq_div_pow]
  norm_num
  rw [wrapInt64_of_range _ (by omega) (by omega)]
  exact UnixMilli_spec _ _ (by omega) (by omega)

/-- C1 (as amended): for every id that is a decimal representation of an integer `n` below
`2^63`, the timestamp of `newMedia` is exactly `1288834974657 + (n >> 22)` milliseconds
after the Unix epoch: that many milliseconds in nanoseconds, with the nanosecond field
normalised. -/
theorem newMedia_ts_exact (env : Env) (id rawURL : String) (n : Nat)
    (h : IsDecimalOf id n) (hn : n < 9223372036854775808) :
    (newMedia env id rawURL).ts.unixNano = (1288834974657 + ((n / 2 ^ 22 : Nat) : Int)) * 1000000
    ∧ 0 ≤ (newMedia env id rawURL).ts.nsec ∧ (newMedia env id rawURL).ts.nsec < 1000000000 := by
  have hp := ParseInt_decimal id n h
  rw [if_pos (by omega)] at hp
  rw [newMedia_ts, hp]
  simp only [Time.unixNano]
  norm_num
  omega

theorem newMedia_ts_exact_witness :
    IsDecimalOf "1600000000000000000" 1600000000000000000 ∧
    (newMedia demoEnv "1600000000000000000" "u").ts.unixNano
      = (1288834974657 + ((1600000000000000000 / 2 ^ 22 : Nat) : Int)) * 1000000 :=
  ⟨by decide, (newMedia_ts_exact demoEnv "1600000000000000000" "u" 1600000000000000000
    (by decide) (by decide)).1⟩

/-- C1 (as stated) fails: `2^63` is a 64-bit unsigned integer, but `ParseInt` is signed and
returns `2^63 - 1` for it, so the timestamp is one millisecond short of
`1288834974657 + (2^63 >> 22)`. -/
theorem newMedia_ts_unsigned_counterexample :
    IsDecimalOf "9223372036854775808" 9223372036854775808 ∧
    (9223372036854775808 : Nat) < 2 ^ 64 ∧
    (newMedia demoEnv "9223372036854775808" "u").ts.unixNano
      ≠ (1288834974657 + ((9223372036854775808 / 2 ^ 22 : Nat) : Int)) * 1000000 ∧
    (newMedia demoEnv "9223372036854775808" "u").ts.unixNano
      = (1288834974657 + ((9223372036854775808 / 2 ^ 22 : Nat) : Int) - 1) * 1000000 := by
  decide

/-- C2: for decimal ids denoting `n1 < n2` (64-bit or not), the timestamp `newMedia`
derives from the first is not after the one it derives from the second. -/
theorem newMedia_ts_monotone (env : Env) (id1 id2 url1 url2 : String) (n1 n2 : Nat)
    (h1 : IsDecimalOf id1 n1) (h2 : IsDecimalOf id2 n2) (hlt : n1 < n2) :
    (newMedia env id1 url1).ts.unixNano ≤ (newMedia env id2 url2).ts.unixNano
    ∧ (newMedia env id2 url2).ts.Before (newMedia env id1 url1).ts = false := by
  have hp1 := ParseInt_decimal id1 n1 h1
  have hp2 := ParseInt_decimal id2 n2 h2
  have key : (ParseInt id1).1 ≤ (ParseInt id2).1 := by
    rw [hp1, hp2]
    split <;> split <;> simp <;> omega
  obtain ⟨a1, a2⟩ := ParseInt_bounds id1
  obtain ⟨b1, b2⟩ := ParseInt_bounds id2
  rw [newMedia_ts, newMedia_ts]
  simp only [Time.unixNano, Time.Before, decide_eq_false_iff_not]
  generalize (ParseInt id1).1 = p1 at *
  generalize (ParseInt id2).1 = p2 at *
  constructor <;> omega

theorem newMedia_ts_monotone_witness :
    (newMedia demoEnv "1600000000000000000" "a").ts.unixNano
      ≤ (newMedia demoEnv "18446744073709551615" "b").ts.unixNano :=
  (newMedia_ts_monotone demoEnv "1600000000000000000" "18446744073709551615" "a" "b"
    1600000000000000000 18446744073709551615 (by decide) (by decide) (by decide)).1

/-- The timestamp of `newMedia` against `mvhdEpoch`: strictly after it, by less than the
largest duration, so that `Sub` is exact and the whole seconds convert to `uint64`
unchanged. -/
theorem newMedia_ts_bounds (env : Env) (id rawURL : String) :
    mvhdEpoch.Before (newMedia env id rawURL).ts = true
    ∧ 0 < (newMedia env id rawURL).ts.unixNano - mvhdEpoch.unixNano
    ∧ (newMedia env id rawURL).ts.unixNano - mvhdEpoch.unixNano < 9223372036854775807
    ∧ (newMedia env id rawURL).ts.Sub mvhdEpoch
        = (newMedia env id rawURL).ts.unixNano - mvhdEpoch.unixNano
    ∧ 0 ≤ Duration.wholeSeconds ((newMedia env id rawURL).ts.Sub mvhdEpoch)
    ∧ Duration.wholeSeconds ((newMedia env id rawURL).ts.Sub mvhdEpoch) < 18446744073709551616
    ∧ (mvhdSeconds (newMedia env id rawURL) : Int)
        = Duration.wholeSeconds ((newMedia env id rawURL).ts.Sub mvhdEpoch) := by
  obtain ⟨a1, a2⟩ := ParseInt_bounds id
  have hsub : (newMedia env id rawURL).ts.Sub mvhdEpoch
      = (newMedia env id rawURL).ts.unixNano - mvhdEpoch.unixNano := by
    rw [newMedia_ts, mvhdEpoch_eq]
    generalize (ParseInt id).1 = p at *
    simp only [Time.Sub, Time.Add, Time.Equal, Time.Before, Time.unixNano]
    have hw : wrapInt64 (((p / 4194304 + 1288834974657) / 1000 - -2082844800) * 1000000000
        + ((p / 4194304 + 1288834974657) % 1000 * 1000000 - 0))
        = ((p / 4194304 + 1288834974657) / 1000 - -2082844800) * 1000000000
        + ((p / 4194304 + 1288834974657) % 1000 * 1000000 - 0) :=
      wrapInt64_of_range _ (by omega) (by omega)
    rw [hw]
    generalize hd : ((p / 4194304 + 1288834974657) / 1000 - -2082844800) * 1000000000
        + ((p / 4194304 + 1288834974657) % 1000 * 1000000 - 0) = d
    obtain ⟨e1, p1, -⟩ := tdiv_tmod_spec d 1000000000 (by norm_num)
    have hd0 : 0 ≤ d := by omega
    obtain ⟨p1a, p1b⟩ := p1 hd0
    generalize Int.tdiv d 1000000000 = q at *
    generalize Int.tmod d 1000000000 = r at *
    have c1 : ¬ (0 + r ≥ 1000000000) := by omega
    have c2 : ¬ (0 + r < 0) := by omega
    have c3 : -2082844800 + q = (p / 4194304 + 1288834974657) / 1000 ∧
        0 + r = (p / 4194304 + 1288834974657) % 1000 * 1000000 := by
      constructor <;> omega
    simp only [if_neg c1, if_neg c2]
    split
    · omega
    · rename_i hne
      exact absurd (decide_eq_true c3) hne
  rw [mvhdSeconds, hsub]
  rw [newMedia_ts, mvhdEpoch_eq]
  generalize (ParseInt id).1 = p at *
  simp only [Time.Before, Time.unixNano, Duration.wholeSeconds, wrapUint64, decide_eq_true_eq]
  generalize hd : ((p / 4194304 + 1288834974657) / 1000 * 1000000000
      + (p / 4194304 + 1288834974657) % 1000 * 1000000 - (-2082844800 * 1000000000 + 0)) = d
  obtain ⟨e1, p1, -⟩ := tdiv_tmod_spec d 1000000000 (by norm_num)
  have hd0 : 0 ≤ d := by omega
  obtain ⟨p1a, p1b⟩ := p1 hd0
  generalize Int.tdiv d 1000000000 = q at *
  generalize Int.tmod d 1000000000 = r at *
  refine ⟨by omega, by omega, by omega, trivial, by omega, by omega, ?_⟩
  rw [Int.toNat_of_nonneg (by omega)]
  omega

/-- C10: whatever the id string, the timestamp of `newMedia` lies strictly after
`mvhdEpoch` and less than `2^63 - 1` nanoseconds after it, so `ts.Sub(mvhdEpoch)` is the
exact difference (neither duration bound is returned), its whole seconds are not
negative, and their conversion to `uint64` in `processVideo` changes nothing. -/
theorem newMedia_ts_range (env : Env) (id rawURL : String) :
    mvhdEpoch.Before (newMedia env id rawURL).ts = true
    ∧ 0 < (newMedia env id rawURL).ts.unixNano - mvhdEpoch.unixNano
    ∧ (newMedia env id rawURL).ts.unixNano - mvhdEpoch.unixNano < 9223372036854775807
    ∧ (newMedia env id rawURL).ts.Sub mvhdEpoch
        = (newMedia env id rawURL).ts.unixNano - mvhdEpoch.unixNano
    ∧ 0 ≤ Duration.wholeSeconds ((newMedia env id rawURL).ts.Sub mvhdEpoch)
    ∧ Duration.wholeSeconds ((newMedia env id rawURL).ts.Sub mvhdEpoch) < 18446744073709551616
    ∧ (mvhdSeconds (newMedia env id rawURL) : Int)
        = Duration.wholeSeconds ((newMedia env id rawURL).ts.Sub mvhdEpoch) := 
  newMedia_ts_bounds env id rawURL

theorem absYearDay_spec (abs : Nat) :
    ∃ Y yd : Nat, absYearDay abs = ((Y : Int) + absoluteZeroYear, yd)
      ∧ abs / 86400 = daysBeforeYear Y + yd ∧ yd < yearLength Y := by
  unfold absYearDay
  simp only [Nat.shiftRight_eq_div_pow]
  refine ⟨_, _, rfl, ?_⟩
  generalize abs / 86400 = D
  generalize h400 : D / 146097 = n400
  generalize hd1 : D - 146097 * n400 = d1
  generalize h100 : d1 / 36524 = n100
  generalize h100c : n100 - n100 / 2 ^ 2 = n100c
  generalize hd2 : d1 - 36524 * n100c = d2
  generalize h4 : d2 / 1461 = n4
  generalize hd3 : d2 - 1461 * n4 = d3
  generalize h1 : d3 / 365 = n1
  generalize h1c : n1 - n1 / 2 ^ 2 = n1c
  generalize hd4 : d3 - 365 * n1c = d4
  norm_num at h100c h1c
  have f1 : d1 < 146097 ∧ D = 146097 * n400 + d1 := by omega
  have f2 : n100c ≤ 3 ∧ d1 = 36524 * n100c + d2 ∧ d2 ≤ 36524 ∧ (n100c < 3 → d2 ≤ 36523) := by
    omega
  have f3 : n4 ≤ 24 ∧ d2 = 1461 * n4 + d3 ∧ d3 ≤ 1460 ∧ (n4 = 24 → n100c < 3 → d3 ≤ 1459) := by
    omega
  have f4 : n1c ≤ 3 ∧ d3 = 365 * n1c + d4 ∧ d4 ≤ 365 ∧ (n1c < 3 → d4 ≤ 364) := by omega
  generalize hy : 400 * n400 + 100 * n100c + 4 * n4 + n1c = y
  have g1 : y / 400 = n400 := by omega
  have g2 : y / 100 = 4 * n400 + n100c := by omega
  have g3 : y / 4 = 100 * n400 + 25 * n100c + n4 := by omega
  have g4 : y % 4 = n1c ∧ y % 100 = 4 * n4 + n1c ∧ y % 400 = 100 * n100c + 4 * n4 + n1c := by
    omega
  constructor
  · unfold daysBeforeYear
    rw [g1, g2, g3]
    omega
  · unfold yearLength
    rw [g4.1, g4.2.1, g4.2.2]
    split <;> omega

theorem daysBeforeYear_succ (Y : Nat) :
    daysBeforeYear (Y + 1) = daysBeforeYear Y + yearLength Y := by
  unfold daysBeforeYear yearLength
  have h4 : (Y + 1) / 4 = Y / 4 + (if Y % 4 = 3 then 1 else 0) := by split <;> omega
  have h100 : (Y + 1) / 100 = Y / 100 + (if Y % 100 = 99 then 1 else 0) := by split <;> omega
  have h400 : (Y + 1) / 400 = Y / 400 + (if Y % 400 = 399 then 1 else 0) := by split <;> omega
  have a1 : Y % 100 = 99 → Y % 4 = 3 := by omega
  have a2 : Y % 400 = 399 → Y % 100 = 99 := by omega
  have b1 : Y / 100 ≤ Y / 4 := by omega
  rw [h4, h100, h400]
  by_cases c4 : Y % 4 = 3 <;> by_cases c100 : Y % 100 = 99 <;> by_cases c400 : Y % 400 = 399 <;>
    simp only [c4, c100, c400, if_true, if_false, ne_eq, not_true_eq_false, not_false_eq_true,
      or_true, or_false, and_true, and_false, true_and] <;> omega

theorem daysBeforeYear_mono {Y Z : Nat} (h : Y ≤ Z) : daysBeforeYear Y ≤ daysBeforeYear Z := by
  induction Z, h using Nat.le_induction with
  | base => exact le_refl _
  | succ Z _ ih =>
    rw [daysBeforeYear_succ]
    omega

/-- A day count determines the year and the day of the year. -/
theorem yearDay_unique (Y Z a b : Nat) (h : daysBeforeYear Y + a = daysBeforeYear Z + b)
    (ha : a < yearLength Y) (hb : b < yearLength Z) : Y = Z ∧ a = b := by
  have key : Y = Z := by
    by_contra hne
    rcases Nat.lt_or_gt_of_ne hne with hlt | hgt
    · have := daysBeforeYear_mono (show Y + 1 ≤ Z by omega)
      rw [daysBeforeYear_succ] at this
      omega
    · have := daysBeforeYear_mono (show Z + 1 ≤ Y by omega)
      rw [daysBeforeYear_succ] at this
      omega
  subst key
  exact ⟨rfl, by omega⟩

theorem tmod_eq_zero_iff (a b : Int) : Int.tmod a b = 0 ↔ a % b = 0 := by
  rw [← Int.dvd_iff_tmod_eq_zero, Int.dvd_iff_emod_eq_zero]

theorem isLeap_eq_leapYear (y : Int) : isLeap y = leapYear y := by
  unfold isLeap leapYear
  simp only [tmod_eq_zero_iff, ne_eq]

theorem leapYear_abs (Y : Nat) :
    leapYear ((Y : Int) + absoluteZeroYear) = decide (yearLength Y = 366) := by
  unfold leapYear yearLength absoluteZeroYear
  rw [Bool.eq_iff_iff]
  simp only [decide_eq_true_eq]
  split <;> omega

theorem daysSinceEpoch_spec (Y : Nat) (h : Y < 600000000000) :
    daysSinceEpoch ((Y : Int) + absoluteZeroYear) = daysBeforeYear Y := by
  unfold daysSinceEpoch daysBeforeYear
  have hw : wrapUint64 ((Y : Int) + absoluteZeroYear - absoluteZeroYear) = Y := by
    unfold wrapUint64
    rw [add_sub_cancel_right]
    omega
  simp only [hw]
  generalize h400 : Y / 400 = n400
  generalize hy1 : Y - 400 * n400 = y1
  generalize h100 : y1 / 100 = n100
  generalize hy2 : y1 - 100 * n100 = y2
  generalize h4 : y2 / 4 = n4
  generalize hy3 : y2 - 4 * n4 = y3
  have f1 : Y = 400 * n400 + y1 ∧ y1 < 400 := by omega
  have f2 : y1 = 100 * n100 + y2 ∧ y2 < 100 ∧ n100 ≤ 3 := by omega
  have f3 : y2 = 4 * n4 + y3 ∧ y3 < 4 ∧ n4 ≤ 24 := by omega
  have g2 : Y / 100 = 4 * n400 + n100 := by omega
  have g3 : Y / 4 = 100 * n400 + 25 * n100 + n4 := by omega
  have hb : 146097 * n400 + 36524 * n100 + 1461 * n4 + 365 * y3 < 18446744073709551616 := by
    omega
  rw [g2, g3, Nat.mod_eq_of_lt hb]
  omega

/-- Month and day of `monthDay` are a date of the year, and Go's day count for that date
(`daysBefore[month-1]`, the leap day after February, the day of the month) is the day of
the year it came from. -/
theorem monthDay_spec : ∀ leap : Bool, ∀ yd : Nat, yd < (if leap then 366 else 365) →
    1 ≤ (monthDay leap yd).1 ∧ (monthDay leap yd).1 ≤ 12 ∧ 1 ≤ (monthDay leap yd).2
    ∧ daysBefore ((monthDay leap yd).1 - 1)
        + (if leap ∧ (monthDay leap yd).1 ≥ 3 then 1 else 0) + ((monthDay leap yd).2 - 1) = yd := by
  decide

theorem daysInMonth_eq (y : Int) (m : Nat) : daysInMonth y m = monthLength (leapYear y) m := rfl

theorem monthDay_next : ∀ leap : Bool, ∀ yd : Nat, yd < 366 →
    yd + 1 < (if leap then 366 else 365) →
    ((monthDay leap yd).2 < monthLength leap (monthDay leap yd).1 →
      monthDay leap (yd + 1) = ((monthDay leap yd).1, (monthDay leap yd).2 + 1))
    ∧ (¬ (monthDay leap yd).2 < monthLength leap (monthDay leap yd).1 →
      (monthDay leap yd).1 < 12 ∧ monthDay leap (yd + 1) = ((monthDay leap yd).1 + 1, 1)) := by
  decide

theorem monthDay_last : ∀ leap : Bool,
    monthDay leap (if leap then 365 else 364) = (12, 31) ∧ monthDay leap 0 = (1, 1) := by
  decide

theorem yearLength_cases (Y : Nat) :
    yearLength Y = if decide (yearLength Y = 366) then 366 else 365 := by
  unfold yearLength
  split <;> simp

/-- The date of the day after day `D` is the next calendar day of the date of day `D`. -/
theorem absDate_succ (D : Nat) :
    absDate ((D + 1) * 86400) = nextCalendarDay (absDate (D * 86400)) := by
  obtain ⟨Y, yd, hY, hD, hyd⟩ := absYearDay_spec (D * 86400)
  obtain ⟨Z, zd, hZ, hE, hzd⟩ := absYearDay_spec ((D + 1) * 86400)
  rw [Nat.mul_div_cancel _ (by norm_num)] at hD hE
  have hlen := yearLength_cases Y
  have h366 : yd < 366 := by rw [hlen] at hyd; split at hyd <;> omega
  unfold absDate nextCalendarDay
  rw [hY, hZ]
  simp only [isLeap_eq_leapYear, leapYear_abs, daysInMonth_eq]
  generalize hleap : decide (yearLength Y = 366) = leap at *
  by_cases hlast : yd + 1 < yearLength Y
  · obtain ⟨e1, e2⟩ := yearDay_unique Z Y zd (yd + 1) (by omega) hzd hlast
    subst e1 e2
    rw [hleap]
    obtain ⟨hn1, hn2⟩ := monthDay_next leap yd h366 (by rw [← hlen]; exact hlast)
    by_cases hlt : (monthDay leap yd).2 < monthLength leap (monthDay leap yd).1
    · rw [if_pos hlt, hn1 hlt]
    · rw [if_neg hlt, if_pos (hn2 hlt).1, (hn2 hlt).2]
  · have hsucc := daysBeforeYear_succ Y
    have hpos : 0 < yearLength (Y + 1) := by unfold yearLength; split <;> omega
    obtain ⟨e1, e2⟩ := yearDay_unique Z (Y + 1) zd 0 (by omega) hzd hpos
    subst e1 e2
    have hyd' : yd = if leap then 365 else 364 := by
      rw [hlen] at hlast hyd
      cases leap <;> simp at hlast hyd ⊢ <;> omega
    have hl := monthDay_last leap
    rw [← hyd'] at hl
    have hl0 := (monthDay_last (decide (yearLength (Y + 1) = 366))).2
    rw [hl.1, hl0]
    have e31 : ¬ (31 < monthLength leap 12) := by cases leap <;> decide
    simp only [e31, if_false, lt_irrefl]
    congr 1
    push_cast
    ring

theorem absDate_of_day (abs : Nat) : absDate abs = absDate (abs / 86400 * 86400) := by
  unfold absDate absYearDay
  rw [Nat.mul_div_cancel _ (by norm_num)]

/-- The date `absDate` returns is a date of the calendar, and Go's day count for it (as
`time.Date` computes it) is the day it came from. -/
theorem absDate_dayNumber (abs : Nat) (h : abs < 18446744073709551616) :
    1 ≤ (absDate abs).2.1 ∧ (absDate abs).2.1 ≤ 12 ∧ 1 ≤ (absDate abs).2.2
    ∧ daysSinceEpoch (absDate abs).1 + daysBefore ((absDate abs).2.1 - 1)
        + (if isLeap (absDate abs).1 ∧ (absDate abs).2.1 ≥ 3 then 1 else 0)
        + ((absDate abs).2.2 - 1) = abs / 86400 := by
  obtain ⟨Y, yd, hY, hD, hyd⟩ := absYearDay_spec abs
  have hlen := yearLength_cases Y
  have hYb : Y < 600000000000 := by
    have h1 : 365 * Y ≤ daysBeforeYear Y := by unfold daysBeforeYear; omega
    omega
  unfold absDate
  rw [hY]
  simp only [isLeap_eq_leapYear, leapYear_abs, daysSinceEpoch_spec Y hYb]
  generalize hleap : decide (yearLength Y = 366) = leap at *
  obtain ⟨m1, m2, m3, m4⟩ := monthDay_spec leap yd (by rw [← hlen]; exact hyd)
  refine ⟨m1, m2, m3, ?_⟩
  rw [hD]
  omega

theorem lookup_fixed (off sec : Int) :
    Location.lookup ⟨off, []⟩ sec = (off, alpha, omegaEnd) := rfl

theorem wrapUint64_of_range (x : Int) (h1 : 0 ≤ x) (h2 : x < 18446744073709551616) :
    (wrapUint64 x : Int) = x := by
  unfold wrapUint64; omega

theorem wrapInt64_wrapInt64_sub (x c : Int) : wrapInt64 (wrapInt64 x - c) = wrapInt64 (x - c) := by
  unfold wrapInt64; omega

theorem norm_id (hi lo base : Int) (h1 : 0 ≤ lo) (h2 : lo < base) : norm hi lo base = (hi, lo) := by
  have c1 : ¬ lo < 0 := by omega
  have c2 : ¬ lo ≥ base := by omega
  simp only [norm, c1, c2, if_false]

/-- `time.Date` at midnight of a calendar date in a location without transitions, far
from the bounds of the `uint64` clock: the instant is the day count times 86400 seconds,
moved to the Unix epoch and by the zone offset. -/
theorem Date_midnight (y : Int) (m d : Nat) (off : Int) (Dn : Nat)
    (hm1 : 1 ≤ m) (hm2 : m ≤ 12) (hd : 1 ≤ d)
    (hDn : daysSinceEpoch y + daysBefore (m - 1) + (if isLeap y ∧ m ≥ 3 then 1 else 0) + (d - 1)
      = Dn)
    (hlo : 4611686010287847296 ≤ (Dn : Int) * 86400)
    (hhi : (Dn : Int) * 86400 ≤ 13835058047142795904)
    (ho1 : -2305843009213693952 ≤ off) (ho2 : off ≤ 2305843009213693952) :
    Date y m d 0 0 0 0 ⟨off, []⟩
      = ⟨(Dn : Int) * 86400 - 9223372028715321600 - off, 0, ⟨off, []⟩⟩ := by
  have n1 : norm y ((m : Int) - 1) 12 = (y, (m : Int) - 1) := norm_id _ _ _ (by omega) (by omega)
  have n2 : norm 0 0 1000000000 = (0, 0) := by decide
  have n3 : norm 0 0 60 = (0, 0) := by decide
  have n4 : norm (d : Int) 0 24 = ((d : Int), 0) := norm_id _ _ _ (by omega) (by omega)
  unfold Date
  simp only [n1, n2, n3, n4, lookup_fixed]
  have e1 : ((m : Int) - 1 + 1 - 1).toNat = m - 1 := by omega
  have e2 : ((m : Int) - 1 + 1 ≥ 3) ↔ m ≥ 3 := by omega
  simp only [e1, e2]
  have e3 : ((if isLeap y = true ∧ m ≥ 3 then daysSinceEpoch y + daysBefore (m - 1) + 1
      else daysSinceEpoch y + daysBefore (m - 1) : Nat) : Int) + ((d : Int) - 1) = (Dn : Int) := by
    by_cases hc : isLeap y = true ∧ m ≥ 3
    · rw [if_pos hc] at hDn ⊢
      omega
    · rw [if_neg hc] at hDn ⊢
      omega
  rw [e3]
  have e4 : wrapUint64 (Dn : Int) = Dn := by
    have := wrapUint64_of_range (Dn : Int) (by omega) (by omega)
    omega
  rw [e4]
  have e5 : (wrapUint64 ((Dn : Int) * 86400 + (0 * 3600 + 0 * 60 + 0)) : Int)
      = (Dn : Int) * 86400 := by
    rw [wrapUint64_of_range _ (by omega) (by omega)]
    omega
  rw [e5]
  unfold unixToAbsolute alpha omegaEnd
  have e6 : wrapInt64 ((Dn : Int) * 86400 - 9223372028715321600)
      = (Dn : Int) * 86400 - 9223372028715321600 :=
    wrapInt64_of_range _ (by omega) (by omega)
  have e7 : wrapInt64 ((Dn : Int) * 86400 - 9223372028715321600 - off)
      = (Dn : Int) * 86400 - 9223372028715321600 - off :=
    wrapInt64_of_range _ (by omega) (by omega)
  simp only [wrapInt64_wrapInt64_sub, e6, e7, ite_self]
  by_cases hz : off = 0
  · subst hz
    simp
  · simp only [ne_eq, hz, not_false_eq_true, if_true]

theorem abs_of_fixed (sec nsec off : Int) (h1 : 0 ≤ sec + off + 9223372028715321600)
    (h2 : sec + off + 9223372028715321600 < 18446744073709551616) :
    ((⟨sec, nsec, ⟨off, []⟩⟩ : Time).abs : Int) = sec + off + 9223372028715321600 := by
  unfold Time.abs
  rw [lookup_fixed]
  unfold unixToAbsolute
  exact wrapUint64_of_range _ h1 h2

/-- The `until` value of `processUser` for a time in a location without transitions: the
date string of the calendar day after the day of `t`. -/
theorem until_fixed_zone (t : Time) (htx : t.loc.tx = [])
    (hs1 : -2305843009213693952 ≤ t.sec) (hs2 : t.sec ≤ 2305843009213693952)
    (ho1 : -2305843009213693952 ≤ t.loc.first) (ho2 : t.loc.first ≤ 2305843009213693952) :
    ((Date t.Date.1 t.Date.2.1 t.Date.2.2 0 0 0 0 t.loc).AddDate 0 0 1).Format
      = formatDateOnly (nextCalendarDay t.Date) := by
  obtain ⟨sec, nsec, ⟨off, tx⟩⟩ := t
  simp only at htx hs1 hs2 ho1 ho2
  subst htx
  have habs := abs_of_fixed sec nsec off (by omega) (by omega)
  generalize hA : (⟨sec, nsec, ⟨off, []⟩⟩ : Time).abs = A at habs
  have hAlt : A < 18446744073709551616 := by omega
  obtain ⟨m1, m2, m3, m4⟩ := absDate_dayNumber A hAlt
  have hdate : (⟨sec, nsec, ⟨off, []⟩⟩ : Time).Date = absDate A := by
    unfold Time.Date; rw [hA]
  rw [hdate]
  generalize hD : A / 86400 = D at m4
  have hDA : D * 86400 ≤ A ∧ A < D * 86400 + 86400 := by omega
  have hday : absDate A = absDate (D * 86400) := by rw [absDate_of_day, hD]
  -- midnight of the day of `t`
  have ht1 := Date_midnight (absDate A).1 (absDate A).2.1 (absDate A).2.2 off D m1 m2 m3 m4
    (by omega) (by omega) ho1 ho2
  rw [ht1]
  have habs1 := abs_of_fixed ((D : Int) * 86400 - 9223372028715321600 - off) 0 off
    (by omega) (by omega)
  have hA1 : (⟨(D : Int) * 86400 - 9223372028715321600 - off, 0, ⟨off, []⟩⟩ : Time).abs
      = D * 86400 := by omega
  have hclock : (⟨(D : Int) * 86400 - 9223372028715321600 - off, 0, ⟨off, []⟩⟩ : Time).Clock
      = (0, 0, 0) := by
    unfold Time.Clock
    rw [hA1]
    simp
  have hdate1 : (⟨(D : Int) * 86400 - 9223372028715321600 - off, 0, ⟨off, []⟩⟩ : Time).Date
      = absDate A := by
    unfold Time.Date
    rw [hA1, hday]
  -- one day later
  have m4' : daysSinceEpoch (absDate A).1 + daysBefore ((absDate A).2.1 - 1)
      + (if isLeap (absDate A).1 ∧ (absDate A).2.1 ≥ 3 then 1 else 0)
      + ((absDate A).2.2 + 1 - 1) = D + 1 := by omega
  have ht2 := Date_midnight (absDate A).1 (absDate A).2.1 ((absDate A).2.2 + 1) off (D + 1)
    m1 m2 (by omega) m4' (by push_cast; omega) (by push_cast; omega) ho1 ho2
  have hadd : (⟨(D : Int) * 86400 - 9223372028715321600 - off, 0, ⟨off, []⟩⟩ : Time).AddDate 0 0 1
      = ⟨((D + 1 : Nat) : Int) * 86400 - 9223372028715321600 - off, 0, ⟨off, []⟩⟩ := by
    unfold Time.AddDate
    simp only [hdate1, hclock, add_zero, Nat.cast_zero]
    rw [← ht2]
    push_cast
    rfl
  rw [hadd]
  have habs2 := abs_of_fixed (((D + 1 : Nat) : Int) * 86400 - 9223372028715321600 - off) 0 off
    (by push_cast; omega) (by push_cast; omega)
  have hA2 : (⟨((D + 1 : Nat) : Int) * 86400 - 9223372028715321600 - off, 0, ⟨off, []⟩⟩ : Time).abs
      = (D + 1) * 86400 := by
    push_cast at habs2 ⊢
    omega
  unfold Time.Format Time.Date
  rw [hA2, absDate_succ, ← hday]

theorem Before_false_refl (t : Time) : t.Before t = false := by
  simp [Time.Before]

theorem Before_false_trans (a b c : Time) (h1 : b.Before a = false) (h2 : c.Before b = false) :
    c.Before a = false := by
  simp only [Time.Before, decide_eq_false_iff_not] at *
  omega

theorem Before_false_of_Before (a b : Time) (h : a.Before b = true) : b.Before a = false := by
  simp only [Time.Before, decide_eq_false_iff_not, decide_eq_true_eq] at *
  omega

theorem After_false_refl (t : Time) : t.After t = false := by
  simp [Time.After]

theorem After_false_trans (a b c : Time) (h1 : b.After a = false) (h2 : c.After b = false) :
    c.After a = false := by
  simp only [Time.After, decide_eq_false_iff_not] at *
  omega

theorem After_false_of_After (a b : Time) (h : a.After b = true) : b.After a = false := by
  simp only [Time.After, decide_eq_false_iff_not, decide_eq_true_eq] at *
  omega

theorem plainFileTimes_cons_dir (e : DirEntry) (ee : List DirEntry) (h : e.IsDir = true) :
    plainFileTimes (e :: ee) = plainFileTimes ee := by
  simp [plainFileTimes, List.filterMap_cons, plainFileTime, h]

theorem plainFileTimes_cons_file (e : DirEntry) (ee : List DirEntry) (t : Time)
    (h : e.IsDir = false) (hi : e.Info = Except.ok t) :
    plainFileTimes (e :: ee) = t :: plainFileTimes ee := by
  simp [plainFileTimes, List.filterMap_cons, plainFileTime, h, hi]

/-- The loop of `findOldest` started with `acc`: it never fails on a listable directory,
and returns an earliest time among `acc` and the plain files. -/
theorem findOldestLoop_spec (ee : List DirEntry) (acc : Option Time) (h : Listable ee) :
    ∃ r, findOldestLoop ee acc = Except.ok r
      ∧ (r = none ↔ acc = none ∧ plainFileTimes ee = [])
      ∧ ∀ t, r = some t → (acc = some t ∨ t ∈ plainFileTimes ee)
          ∧ (∀ u, acc = some u → u.Before t = false)
          ∧ (∀ u ∈ plainFileTimes ee, u.Before t = false) := by
  induction ee generalizing acc with
  | nil =>
    refine ⟨acc, rfl, by simp [plainFileTimes], ?_⟩
    intro t ht
    refine ⟨Or.inl ht, ?_, by simp [plainFileTimes]⟩
    intro u hu
    rw [ht] at hu
    cases hu
    exact Before_false_refl t
  | cons e ee ih =>
    have hrest : Listable ee := fun x hx => h x (by simp [hx])
    by_cases hdir : e.IsDir = true
    · obtain ⟨r, hr, hnone, hsome⟩ := ih acc hrest
      refine ⟨r, by simp [findOldestLoop, hdir, hr], ?_, ?_⟩
      · rw [plainFileTimes_cons_dir e ee hdir]; exact hnone
      · rw [plainFileTimes_cons_dir e ee hdir]; exact hsome
    · have hfile : e.IsDir = false := by simpa using hdir
      obtain ⟨t0, ht0⟩ := h e (by simp) hfile
      rw [plainFileTimes_cons_file e ee t0 hfile ht0]
      cases acc with
      | none =>
        obtain ⟨r, hr, hnone, hsome⟩ := ih (some t0) hrest
        refine ⟨r, by simp [findOldestLoop, hfile, ht0, hr], ?_, ?_⟩
        · constructor
          · intro hn; exact absurd (hnone.1 hn).1 (by simp)
          · intro hn; exact absurd hn.2 (by simp)
        · intro t ht
          obtain ⟨hmem, hacc, hall⟩ := hsome t ht
          refine ⟨Or.inr ?_, by simp, ?_⟩
          · rcases hmem with hm | hm
            · simp at hm; simp [hm]
            · simp [hm]
          · intro u hu
            rcases List.mem_cons.1 hu with hu | hu
            · exact hacc u (by rw [hu])
            · exact hall u hu
      | some o =>
        by_cases hb : t0.Before o = true
        · obtain ⟨r, hr, hnone, hsome⟩ := ih (some t0) hrest
          refine ⟨r, by simp [findOldestLoop, hfile, ht0, hb, hr], ?_, ?_⟩
          · constructor
            · intro hn; exact absurd (hnone.1 hn).1 (by simp)
            · intro hn; exact absurd hn.1 (by simp)
          · intro t ht
            obtain ⟨hmem, hacc, hall⟩ := hsome t ht
            have h0 : t0.Before t = false := hacc t0 rfl
            refine ⟨Or.inr ?_, ?_, ?_⟩
            · rcases hmem with hm | hm
              · simp at hm; simp [hm]
              · simp [hm]
            · intro u hu
              simp at hu
              subst hu
              exact Before_false_trans t t0 o h0 (Before_false_of_Before t0 o hb)
            · intro u hu
              rcases List.mem_cons.1 hu with hu | hu
              · rw [hu]; exact h0
              · exact hall u hu
        · have hb' : t0.Before o = false := by simpa using hb
          obtain ⟨r, hr, hnone, hsome⟩ := ih (some o) hrest
          refine ⟨r, by simp [findOldestLoop, hfile, ht0, hb', hr], ?_, ?_⟩
          · constructor
            · intro hn; exact absurd (hnone.1 hn).1 (by simp)
            · intro hn; exact absurd hn.1 (by simp)
          · intro t ht
            obtain ⟨hmem, hacc, hall⟩ := hsome t ht
            have h0 : o.Before t = false := hacc o rfl
            refine ⟨?_, ?_, ?_⟩
            · rcases hmem with hm | hm
              · exact Or.inl hm
              · exact Or.inr (by simp [hm])
            · intro u hu
              simp at hu
              subst hu
              exact h0
            · intro u hu
              rcases List.mem_cons.1 hu with hu | hu
              · rw [hu]; exact Before_false_trans t o t0 h0 hb'
              · exact hall u hu

/-- The loop of `findNewest` started with `acc`: it never fails on a listable directory,
and returns a latest time among `acc` and the plain files. -/
theorem findNewestLoop_spec (ee : List DirEntry) (acc : Option Time) (h : Listable ee) :
    ∃ r, findNewestLoop ee acc = Except.ok r
      ∧ (r = none ↔ acc = none ∧ plainFileTimes ee = [])
      ∧ ∀ t, r = some t → (acc = some t ∨ t ∈ plainFileTimes ee)
          ∧ (∀ u, acc = some u → u.After t = false)
          ∧ (∀ u ∈ plainFileTimes ee, u.After t = false) := by
  induction ee generalizing acc with
  | nil =>
    refine ⟨acc, rfl, by simp [plainFileTimes], ?_⟩
    intro t ht
    refine ⟨Or.inl ht, ?_, by simp [plainFileTimes]⟩
    intro u hu
    rw [ht] at hu
    cases hu
    exact After_false_refl t
  | cons e ee ih =>
    have hrest : Listable ee := fun x hx => h x (by simp [hx])
    by_cases hdir : e.IsDir = true
    · obtain ⟨r, hr, hnone, hsome⟩ := ih acc hrest
      refine ⟨r, by simp [findNewestLoop, hdir, hr], ?_, ?_⟩
      · rw [plainFileTimes_cons_dir e ee hdir]; exact hnone
      · rw [plainFileTimes_cons_dir e ee hdir]; exact hsome
    · have hfile : e.IsDir = false := by simpa using hdir
      obtain ⟨t0, ht0⟩ := h e (by simp) hfile
      rw [plainFileTimes_cons_file e ee t0 hfile ht0]
      cases acc with
      | none =>
        obtain ⟨r, hr, hnone, hsome⟩ := ih (some t0) hrest
        refine ⟨r, by simp [findNewestLoop, hfile, ht0, hr], ?_, ?_⟩
        · constructor
          · intro hn; exact absurd (hnone.1 hn).1 (by simp)
          · intro hn; exact absurd hn.2 (by simp)
        · intro t ht
          obtain ⟨hmem, hacc, hall⟩ := hsome t ht
          refine ⟨Or.inr ?_, by simp, ?_⟩
          · rcases hmem with hm | hm
            · simp at hm; simp [hm]
            · simp [hm]
          · intro u hu
            rcases List.mem_cons.1 hu with hu | hu
            · exact hacc u (by rw [hu])
            · exact hall u hu
      | some o =>
        by_cases hb : t0.After o = true
        · obtain ⟨r, hr, hnone, hsome⟩ := ih (some t0) hrest
          refine ⟨r, by simp [findNewestLoop, hfile, ht0, hb, hr], ?_, ?_⟩
          · constructor
            · intro hn; exact absurd (hnone.1 hn).1 (by simp)
            · intro hn; exact absurd hn.1 (by simp)
          · intro t ht
            obtain ⟨hmem, hacc, hall⟩ := hsome t ht
            have h0 : t0.After t = false := hacc t0 rfl
            refine ⟨Or.inr ?_, ?_, ?_⟩
            · rcases hmem with hm | hm
              · simp at hm; simp [hm]
              · simp [hm]
            · intro u hu
              simp at hu
              subst hu
              exact After_false_trans t t0 o h0 (After_false_of_After t0 o hb)
            · intro u hu
              rcases List.mem_cons.1 hu with hu | hu
              · rw [hu]; exact h0
              · exact hall u hu
        · have hb' : t0.After o = false := by simpa using hb
          obtain ⟨r, hr, hnone, hsome⟩ := ih (some o) hrest
          refine ⟨r, by simp [findNewestLoop, hfile, ht0, hb', hr], ?_, ?_⟩
          · constructor
            · intro hn; exact absurd (hnone.1 hn).1 (by simp)
            · intro hn; exact absurd hn.1 (by simp)
          · intro t ht
            obtain ⟨hmem, hacc, hall⟩ := hsome t ht
            have h0 : o.After t = false := hacc o rfl
            refine ⟨?_, ?_, ?_⟩
            · rcases hmem with hm | hm
              · exact Or.inl hm
              · exact Or.inr (by simp [hm])
            · intro u hu
              simp at hu
              subst hu
              exact h0
            · intro u hu
              rcases List.mem_cons.1 hu with hu | hu
              · rw [hu]; exact After_false_trans t o t0 h0 hb'
              · exact hall u hu

/-- What `findOldest` and `findNewest` return on a listing whose plain files all have a
modification time. -/
theorem archive_scan_aux (ee : List DirEntry) (h : Listable ee) :
    (∃ r, findOldest (Except.ok ee) = Except.ok r
      ∧ (r = none ↔ plainFileTimes ee = [])
      ∧ ∀ t, r = some t → t ∈ plainFileTimes ee ∧ ∀ u ∈ plainFileTimes ee, u.Before t = false)
    ∧ (∃ r, findNewest (Except.ok ee) = Except.ok r
      ∧ (r = none ↔ plainFileTimes ee = [])
      ∧ ∀ t, r = some t → t ∈ plainFileTimes ee ∧ ∀ u ∈ plainFileTimes ee, u.After t = false) := by
  constructor
  · obtain ⟨r, hr, hnone, hsome⟩ := findOldestLoop_spec ee none h
    refine ⟨r, hr, by simpa using hnone, ?_⟩
    intro t ht
    obtain ⟨hmem, -, hall⟩ := hsome t ht
    exact ⟨by simpa using hmem, hall⟩
  · obtain ⟨r, hr, hnone, hsome⟩ := findNewestLoop_spec ee none h
    refine ⟨r, hr, by simpa using hnone, ?_⟩
    intro t ht
    obtain ⟨hmem, -, hall⟩ := hsome t ht
    exact ⟨by simpa using hmem, hall⟩

/-- C6: on a listing whose plain files all have a modification time, `findOldest`
returns a modification time of a plain file that none of them is before, and `findNewest`
one that none of them is after; sub-directories are ignored; each returns `nil`
exactly when the listing has no plain file. -/
theorem archive_scan (ee : List DirEntry) (h : Listable ee) :
    (∃ r, findOldest (Except.ok ee) = Except.ok r
      ∧ (r = none ↔ plainFileTimes ee = [])
      ∧ ∀ t, r = some t → t ∈ plainFileTimes ee ∧ ∀ u ∈ plainFileTimes ee, u.Before t = false)
    ∧ (∃ r, findNewest (Except.ok ee) = Except.ok r
      ∧ (r = none ↔ plainFileTimes ee = [])
      ∧ ∀ t, r = some t → t ∈ plainFileTimes ee ∧ ∀ u ∈ plainFileTimes ee, u.After t = false) :=
  archive_scan_aux ee h

theorem archive_scan_witness :
    Listable [dirEntry "sub", fileEntry "b.jpg" may10, fileEntry "a.jpg" ⟨1600000000, 0, UTC⟩]
    ∧ findOldest (Except.ok
        [dirEntry "sub", fileEntry "b.jpg" may10, fileEntry "a.jpg" ⟨1600000000, 0, UTC⟩])
      = Except.ok (some ⟨1600000000, 0, UTC⟩)
    ∧ ∃ r, findNewest (Except.ok
        [dirEntry "sub", fileEntry "b.jpg" may10, fileEntry "a.jpg" ⟨1600000000, 0, UTC⟩])
      = Except.ok r ∧ (r = none ↔ plainFileTimes
        [dirEntry "sub", fileEntry "b.jpg" may10, fileEntry "a.jpg" ⟨1600000000, 0, UTC⟩] = []) := by
  have hl : Listable
      [dirEntry "sub", fileEntry "b.jpg" may10, fileEntry "a.jpg" ⟨1600000000, 0, UTC⟩] := by
    intro e he hd
    simp at he
    rcases he with he | he | he
    · subst he; simp [dirEntry] at hd
    · subst he; exact ⟨_, rfl⟩
    · subst he; exact ⟨_, rfl⟩
  refine ⟨hl, by rfl, ?_⟩
  obtain ⟨r, hr, hnone, -⟩ := (archive_scan _ hl).2
  exact ⟨r, hr, hnone⟩

/-- C5: in incremental mode, on a listing whose plain files all have a modification time,
the query of `processUser` has no `until`; it has no `since` when there is no plain file,
and otherwise its `since` is the date string of the calendar day of a newest modification
time, with no day added. -/
theorem plan_incremental (flags : Flags) (user : String) (ee : List DirEntry)
    (hd : flags.decremental = false) (hi : flags.incremental = true) (hl : Listable ee) :
    (plainFileTimes ee = [] →
      planQuery flags user (Except.ok ee) = Except.ok [("from", user), ("filter", "media")])
    ∧ (plainFileTimes ee ≠ [] →
      ∃ t, t ∈ plainFileTimes ee ∧ (∀ u ∈ plainFileTimes ee, u.After t = false)
        ∧ findNewest (Except.ok ee) = Except.ok (some t)
        ∧ planQuery flags user (Except.ok ee)
          = Except.ok [("from", user), ("filter", "media"), ("since", formatDateOnly t.Date)]) := by
  obtain ⟨r, hr, hnone, hsome⟩ := (archive_scan_aux ee hl).2
  constructor
  · intro hempty
    have : r = none := hnone.2 hempty
    subst this
    simp [planQuery, hd, hi, hr]
  · intro hne
    cases r with
    | none => exact absurd (hnone.1 rfl) hne
    | some t =>
      obtain ⟨hmem, hall⟩ := hsome t rfl
      refine ⟨t, hmem, hall, hr, ?_⟩
      simp [planQuery, hd, hi, hr, Time.Format]

theorem plan_incremental_witness :
    planQuery incFlags "user" (Except.ok [fileEntry "1.jpg" may10])
      = Except.ok [("from", "user"), ("filter", "media"), ("since", "2023-05-10")] := by
  have hl : Listable [fileEntry "1.jpg" may10] := by
    intro e he _
    simp at he
    subst he
    exact ⟨_, rfl⟩
  obtain ⟨t, hmem, -, -, hq⟩ :=
    (plan_incremental incFlags "user" [fileEntry "1.jpg" may10] rfl rfl hl).2 (by decide)
  have ht : t = may10 := by
    simpa [plainFileTimes, plainFileTime, fileEntry] using hmem
  subst ht
  rw [hq]
  have : formatDateOnly may10.Date = "2023-05-10" := by decide
  rw [this]

/-- In decremental mode, on a listing whose plain files all have a modification time, the
query of `processUser` has no `since`; it has no `until` when there is no plain file;
otherwise, when an oldest modification time `t` is shown in a location without
transitions (and lies within `2^61` seconds of the Unix epoch), its `until` is the date
string of the calendar day after the day of `t` in that location. -/
theorem plan_decremental_fixed_zone (flags : Flags) (user : String) (ee : List DirEntry)
    (hd : flags.decremental = true) (hl : Listable ee) :
    (plainFileTimes ee = [] →
      planQuery flags user (Except.ok ee) = Except.ok [("from", user), ("filter", "media")])
    ∧ (plainFileTimes ee ≠ [] →
      ∃ t, t ∈ plainFileTimes ee ∧ (∀ u ∈ plainFileTimes ee, u.Before t = false)
        ∧ findOldest (Except.ok ee) = Except.ok (some t)
        ∧ (t.loc.tx = [] →
            -2305843009213693952 ≤ t.sec → t.sec ≤ 2305843009213693952 →
            -2305843009213693952 ≤ t.loc.first → t.loc.first ≤ 2305843009213693952 →
            planQuery flags user (Except.ok ee)
              = Except.ok [("from", user), ("filter", "media"),
                  ("until", formatDateOnly (nextCalendarDay t.Date))])) := by
  obtain ⟨r, hr, hnone, hsome⟩ := (archive_scan_aux ee hl).1
  constructor
  · intro hempty
    have : r = none := hnone.2 hempty
    subst this
    simp [planQuery, hd, hr]
  · intro hne
    cases r with
    | none => exact absurd (hnone.1 rfl) hne
    | some t =>
      obtain ⟨hmem, hall⟩ := hsome t rfl
      refine ⟨t, hmem, hall, hr, ?_⟩
      intro htx hs1 hs2 ho1 ho2
      have hu := until_fixed_zone t htx hs1 hs2 ho1 ho2
      simp [planQuery, hd, hr, hu]

theorem plan_decremental_fixed_zone_witness :
    planQuery decFlags "user" (Except.ok [fileEntry "1.jpg" may10])
      = Except.ok [("from", "user"), ("filter", "media"), ("until", "2023-05-11")] := by
  have hl : Listable [fileEntry "1.jpg" may10] := by
    intro e he _
    simp at he
    subst he
    exact ⟨_, rfl⟩
  obtain ⟨t, hmem, -, -, hq⟩ :=
    (plan_decremental_fixed_zone decFlags "user" [fileEntry "1.jpg" may10] rfl hl).2 (by decide)
  have ht : t = may10 := by
    simpa [plainFileTimes, plainFileTime, fileEntry] using hmem
  subst ht
  rw [hq rfl (by decide) (by decide) (by decide) (by decide)]
  have : formatDateOnly (nextCalendarDay may10.Date) = "2023-05-11" := by decide
  rw [this]

/-- C4 fails where the location skips local midnight: with a single file last modified at
15:00 on 12 March 2023, Havana time, on a day whose first hour the clocks skip, the
program asks for `until:2023-03-12`, while the day after the file's day is 2023-03-13.
`time.Date` resolves the skipped midnight to 23:00 of 11 March, and the day `AddDate`
adds leads to 23:00 of 12 March. -/
theorem plan_decremental_skipped_midnight :
    findOldest (Except.ok [fileEntry "1.jpg" march12Havana]) = Except.ok (some march12Havana)
    ∧ march12Havana.Date = (2023, 3, 12)
    ∧ formatDateOnly (nextCalendarDay march12Havana.Date) = "2023-03-13"
    ∧ (Date 2023 3 12 0 0 0 0 havana).Date = (2023, 3, 11)
    ∧ (Date 2023 3 12 0 0 0 0 havana).Clock = (23, 0, 0)
    ∧ planQuery decFlags "user" (Except.ok [fileEntry "1.jpg" march12Havana])
      = Except.ok [("from", "user"), ("filter", "media"), ("until", "2023-03-12")] := by
  refine ⟨rfl, by decide, by decide, by decide, by decide, ?_⟩
  have h : ((Date march12Havana.Date.1 march12Havana.Date.2.1 march12Havana.Date.2.2
      0 0 0 0 march12Havana.loc).AddDate 0 0 1).Format = "2023-03-12" := by decide
  simp [planQuery, decFlags, findOldest, findOldestLoop, fileEntry, h]

theorem lookup_put_self (w : World) (name : String) (node : Node) :
    (w.put name node).files.lookup name = some node := by
  simp [World.put, List.lookup]

theorem emit_files (w : World) (e : Event) : (w.emit e).files = w.files := rfl

theorem put_trace (w : World) (name : String) (node : Node) : (w.put name node).trace = w.trace :=
  rfl

theorem transfers_emit (w : World) (e : Event) :
    transfers (w.emit e) = transfers w + (if e.isGet then 1 else 0) := by
  unfold transfers World.emit
  simp only [List.filter_append, List.length_append]
  cases h : e.isGet <;> simp [List.filter, h]

theorem transfers_put (w : World) (name : String) (node : Node) :
    transfers (w.put name node) = transfers w := rfl

theorem newMedia_url (env : Env) (id rawURL : String) :
    (newMedia env id rawURL).url = env.urlParse rawURL := rfl

theorem newMedia_id (env : Env) (id rawURL : String) : (newMedia env id rawURL).id = id := rfl

/-- `download` when the target is in place. -/
theorem download_existing (env : Env) (flags : Flags) (m : Media) (u : URL) (node : Node)
    (w : World) (hu : m.url = some u)
    (hf : w.files.lookup (targetName env flags m.id u.Path) = some node)
    (hn : ∀ e, node ≠ Node.inaccessible e) :
    download env flags m w = (Except.ok none, skipped w (targetName env flags m.id u.Path)) := by
  unfold targetName at hf
  unfold download
  simp only [hu, hf]
  cases node with
  | inaccessible e => exact absurd rfl (hn e)
  | file d a t => rfl
  | dir => rfl

/-- `download` when the target is absent: it fails, or it performs one transfer and
creates the file. -/
theorem download_new (env : Env) (flags : Flags) (m : Media) (u : URL) (w : World)
    (hu : m.url = some u)
    (hf : w.files.lookup (targetName env flags m.id u.Path) = none) :
    (∃ f w1, download env flags m w = (Except.error f, w1))
    ∨ (∃ body : Body, download env flags m w =
        (Except.ok (some (targetName env flags m.id u.Path)),
          (((((w.emit (Event.stat (targetName env flags m.id u.Path))).emit
            (Event.logged ("downloading `" ++ targetName env flags m.id u.Path ++ "`"))).emit
            (Event.get (env.urlString u))).emit
            (Event.create (targetName env flags m.id u.Path))).put
            (targetName env flags m.id u.Path) (Node.file body.data env.now env.now)))) := by
  unfold targetName at hf ⊢
  unfold download
  simp only [hu, hf]
  cases hg : env.httpGet (env.urlString u) with
  | error e => exact Or.inl ⟨_, _, rfl⟩
  | ok body =>
    cases hc : env.createErr (env.pathJoin flags.output (m.id ++ Ext u.Path)) with
    | some e => exact Or.inl ⟨_, _, rfl⟩
    | none =>
      cases hb : body.copyErr with
      | some e => simp only [hb]; exact Or.inl ⟨_, _, rfl⟩
      | none => simp only [hb]; exact Or.inr ⟨body, rfl⟩

theorem fixTimestamp_file (m : Media) (name : String) (w : World) (data : List Nat)
    (a t : Time) (h : w.files.lookup name = some (Node.file data a t)) :
    fixTimestamp m name w
      = (none, (w.emit (Event.chtimes name m.ts)).put name (Node.file data m.ts m.ts)) := by
  unfold fixTimestamp
  simp only [h]

/-- `processVideo` after a download that created the file: it fails, or it rewrites the
file as the encoding of the decoded container with both header times replaced. -/
theorem processVideo_new (env : Env) (flags : Flags) (m : Media) (w wd : World) (name : String)
    (data : List Nat) (a t : Time)
    (hd : download env flags m w = (Except.ok (some name), wd))
    (hf : wd.files.lookup name = some (Node.file data a t)) :
    (∃ f w1, processVideo env flags m w = (Except.error f, w1))
    ∨ (∃ (f : MP4File) (moov : Moov) (h : Mvhd),
        env.decodeMP4 data = Except.ok f ∧ f.Moov = some moov ∧ moov.Mvhd = some h
        ∧ processVideo env flags m w =
          (Except.ok (some name),
            ((wd.emit (Event.readMP4 name)).emit (Event.writeMP4 name)).put name
              (Node.file (env.encodeMP4 (setHeaderTimes f moov h (mvhdSeconds m))).data
                env.now env.now))) := by
  unfold processVideo
  simp only [hd, hf]
  cases hdec : env.decodeMP4 data with
  | error e => exact Or.inl ⟨_, _, rfl⟩
  | ok f =>
    cases hmoov : f.Moov with
    | none => simp only [hmoov]; exact Or.inl ⟨_, _, rfl⟩
    | some moov =>
      cases hmvhd : moov.Mvhd with
      | none => simp only [hmoov, hmvhd]; exact Or.inl ⟨_, _, rfl⟩
      | some h =>
        simp only [hmoov, hmvhd]
        cases hc : env.createErr name with
        | some e => simp only [hc]; exact Or.inl ⟨_, _, rfl⟩
        | none =>
          simp only [hc]
          split
          · exact Or.inl ⟨_, _, rfl⟩
          · exact Or.inr ⟨f, moov, h, rfl, hmoov, hmvhd, rfl⟩

theorem wholeSeconds_nonneg (d : Int) (h : 0 ≤ d) : Duration.wholeSeconds d = d / 1000000000 := by
  unfold Duration.wholeSeconds
  exact Int.tdiv_eq_ediv h (by norm_num)

/-- C7: when `processVideo` patches a downloaded video whose timestamp `newMedia` derived,
the file is rewritten as the encoding of the decoded container with one and the same
value in `CreationTime` and `ModificationTime` of the movie header, and that value is the
number of whole seconds from 1904-01-01T00:00:00Z (`mvhdEpoch`) to the timestamp; for the
timestamp 1970-01-01T00:00:00Z, which `newMedia` derives from the id
`-5405765689543753728`, the value is 2082844800. -/
theorem patch_value (env : Env) (flags : Flags) (id rawURL : String) (w wd : World)
    (name : String) (data : List Nat) (a t : Time) (f : MP4File) (moov : Moov) (h : Mvhd)
    (hd : download env flags (newMedia env id rawURL) w = (Except.ok (some name), wd))
    (hf : wd.files.lookup name = some (Node.file data a t))
    (hdec : env.decodeMP4 data = Except.ok f) (hmoov : f.Moov = some moov)
    (hmvhd : moov.Mvhd = some h) (hc : env.createErr name = none) :
    (∃ ts : Nat,
      (processVideo env flags (newMedia env id rawURL) w).2.files.lookup name
        = some (Node.file (env.encodeMP4 (setHeaderTimes f moov h ts)).data env.now env.now)
      ∧ (setHeaderTimes f moov h ts).Moov
          = some ⟨some ⟨ts, ts, h.other⟩, moov.other⟩
      ∧ (setHeaderTimes f moov h ts).other = f.other
      ∧ (ts : Int) = ((newMedia env id rawURL).ts.unixNano - mvhdEpoch.unixNano) / 1000000000
      ∧ (ts : Int) = (newMedia env id rawURL).ts.sec + 2082844800)
    ∧ (newMedia demoEnv "-5405765689543753728" "u").ts = ⟨0, 0, UTC⟩
    ∧ mvhdSeconds (newMedia demoEnv "-5405765689543753728" "u") = 2082844800 := by
  refine ⟨⟨mvhdSeconds (newMedia env id rawURL), ?_, rfl, rfl, ?_, ?_⟩, by decide, by decide⟩
  · unfold processVideo
    simp only [hd, hf, hdec, hmoov, hmvhd, hc]
    split <;> exact lookup_put_self _ _ _
  · obtain ⟨-, h1, -, h3, -, -, h6⟩ := newMedia_ts_bounds env id rawURL
    rw [h6, h3, wholeSeconds_nonneg _ (by omega)]
  · obtain ⟨-, h1, -, h3, -, -, h6⟩ := newMedia_ts_bounds env id rawURL
    rw [h6, h3, wholeSeconds_nonneg _ (by omega)]
    have hn := newMedia_ts env id rawURL
    rw [mvhdEpoch_eq]
    generalize (newMedia env id rawURL).ts = ts at *
    subst hn
    simp only [Time.unixNano]
    omega

theorem patch_value_witness :
    (processVideo demoEnv decFlags (newMedia demoEnv "1600000000000000000" "/v/clip.mp4")
        emptyWorld).2.files.lookup "out/1600000000000000000.mp4"
      = some (Node.file [3753149501, 3753149501] demoEnv.now demoEnv.now) := by
  obtain ⟨ts, h1, -, -, -, h5⟩ := (patch_value demoEnv decFlags "1600000000000000000" "/v/clip.mp4"
    emptyWorld
    (download demoEnv decFlags (newMedia demoEnv "1600000000000000000" "/v/clip.mp4")
      emptyWorld).2
    "out/1600000000000000000.mp4" [1, 2, 3] demoEnv.now demoEnv.now
    ⟨some ⟨some ⟨0, 0, []⟩, []⟩, [1, 2, 3]⟩ ⟨some ⟨0, 0, []⟩, []⟩ ⟨0, 0, []⟩
    (by rfl) (by decide) rfl rfl rfl rfl).1
  have hts : ts = 3753149501 := by
    have : (newMedia demoEnv "1600000000000000000" "/v/clip.mp4").ts.sec = 1670304701 := by
      decide
    omega
  subst hts
  rw [h1]
  rfl

theorem skipped_files (w : World) (name : String) : (skipped w name).files = w.files := rfl

theorem skipped_transfers (w : World) (name : String) : transfers (skipped w name) = transfers w := by
  unfold skipped
  rw [transfers_emit, transfers_emit]
  simp [Event.isGet]

/-- The three steps that fetch an item, and the loop around them, when the target is in
place. -/
theorem process_existing (env : Env) (flags : Flags) (it : Item) (u : URL) (node : Node)
    (w : World) (video : Bool) (rest : List Item)
    (hu : env.urlParse it.URL = some u)
    (hf : w.files.lookup (targetName env flags it.ID u.Path) = some node)
    (hn : ∀ e, node ≠ Node.inaccessible e) :
    download env flags (newMedia env it.ID it.URL) w
      = (Except.ok none, skipped w (targetName env flags it.ID u.Path))
    ∧ processPhoto env flags (newMedia env it.ID it.URL) w
      = (Except.ok none, skipped w (targetName env flags it.ID u.Path))
    ∧ processVideo env flags (newMedia env it.ID it.URL) w
      = (Except.ok none, skipped w (targetName env flags it.ID u.Path))
    ∧ processItems env flags video (it :: rest) w
      = processItems env flags video rest (skipped w (targetName env flags it.ID u.Path)) := by
  have hd : download env flags (newMedia env it.ID it.URL) w
      = (Except.ok none, skipped w (targetName env flags it.ID u.Path)) :=
    download_existing env flags (newMedia env it.ID it.URL) u node w hu hf hn
  have hp : processPhoto env flags (newMedia env it.ID it.URL) w
      = (Except.ok none, skipped w (targetName env flags it.ID u.Path)) := by
    unfold processPhoto
    simp only [newMedia_url, hu]
    exact download_existing env flags _ { u with RawQuery := env.queryWithOrig u.RawQuery }
      node w rfl hf hn
  have hv : processVideo env flags (newMedia env it.ID it.URL) w
      = (Except.ok none, skipped w (targetName env flags it.ID u.Path)) := by
    unfold processVideo
    rw [hd]
  refine ⟨hd, hp, hv, ?_⟩
  cases video with
  | false => simp only [processItems, Bool.false_eq_true, if_false, hp]
  | true => simp only [processItems, if_true, hv]

/-- A first run that fetches an absent item without error leaves a file at the target and
performs exactly one transfer. -/
theorem first_run (env : Env) (flags : Flags) (it : Item) (u : URL) (w0 w1 : World)
    (video : Bool) (hu : env.urlParse it.URL = some u)
    (hf : w0.files.lookup (targetName env flags it.ID u.Path) = none)
    (h1 : processItems env flags video [it] w0 = (none, w1)) :
    (∃ data a t, w1.files.lookup (targetName env flags it.ID u.Path) = some (Node.file data a t))
    ∧ transfers w1 = transfers w0 + 1 := by
  cases video with
  | false =>
    simp only [processItems, Bool.false_eq_true, if_false, processPhoto, newMedia_url, hu] at h1
    rcases download_new env flags
      { newMedia env it.ID it.URL with
        url := some { u with RawQuery := env.queryWithOrig u.RawQuery } }
      { u with RawQuery := env.queryWithOrig u.RawQuery } w0 rfl hf
      with ⟨f, wd, hd⟩ | ⟨body, hd⟩
    · rw [hd] at h1
      simp at h1
    · rw [hd] at h1
      dsimp only at h1
      rw [fixTimestamp_file _ _ _ body.data env.now env.now (lookup_put_self _ _ _)] at h1
      simp only [Prod.mk.injEq, true_and] at h1
      subst h1
      refine ⟨⟨_, _, _, lookup_put_self _ _ _⟩, ?_⟩
      simp [transfers_put, transfers_emit, Event.isGet]
  | true =>
    simp only [processItems, if_true] at h1
    rcases download_new env flags (newMedia env it.ID it.URL) u w0 hu hf
      with ⟨f, wd, hd⟩ | ⟨body, hd⟩
    · unfold processVideo at h1
      rw [hd] at h1
      simp at h1
    · rcases processVideo_new env flags (newMedia env it.ID it.URL) w0 _ _ body.data env.now
        env.now hd (lookup_put_self _ _ _) with ⟨f, wv, hv⟩ | ⟨f, moov, h, -, -, -, hv⟩
      · rw [hv] at h1
        simp at h1
      · rw [hv] at h1
        dsimp only at h1
        rw [fixTimestamp_file _ _ _ _ env.now env.now (lookup_put_self _ _ _)] at h1
        simp only [Prod.mk.injEq, true_and] at h1
        subst h1
        refine ⟨⟨_, _, _, lookup_put_self _ _ _⟩, ?_⟩
        simp [transfers_put, transfers_emit, Event.isGet]

/-- C8: when a file is already in place at `outputDir/(id + extension of the URL path)`,
`download`, `processPhoto` and `processVideo` return "skipped" (`nil, nil`), the only
effects are the `os.Stat` and a log line (no transfer, no container patch), the loop of
`processUser` goes on to the next item without calling `fixTimestamp`, and the files are
unchanged; and when a first run fetches an absent item without error, a second run on the
same item is skipped, leaves the files as they are, and the two runs together perform
exactly one transfer. -/
theorem idempotent_fetch (env : Env) (flags : Flags) (it : Item) (u : URL) (video : Bool)
    (hu : env.urlParse it.URL = some u) :
    (∀ (w : World) (node : Node) (rest : List Item),
      w.files.lookup (targetName env flags it.ID u.Path) = some node →
      (∀ e, node ≠ Node.inaccessible e) →
      download env flags (newMedia env it.ID it.URL) w
        = (Except.ok none, skipped w (targetName env flags it.ID u.Path))
      ∧ processPhoto env flags (newMedia env it.ID it.URL) w
        = (Except.ok none, skipped w (targetName env flags it.ID u.Path))
      ∧ processVideo env flags (newMedia env it.ID it.URL) w
        = (Except.ok none, skipped w (targetName env flags it.ID u.Path))
      ∧ processItems env flags video (it :: rest) w
        = processItems env flags video rest (skipped w (targetName env flags it.ID u.Path))
      ∧ (skipped w (targetName env flags it.ID u.Path)).files = w.files
      ∧ (skipped w (targetName env flags it.ID u.Path)).trace
        = w.trace ++ [Event.stat (targetName env flags it.ID u.Path),
            Event.logged ("`" ++ targetName env flags it.ID u.Path ++ "` already exists")]
      ∧ transfers (skipped w (targetName env flags it.ID u.Path)) = transfers w)
    ∧ (∀ w0 w1 : World,
      w0.files.lookup (targetName env flags it.ID u.Path) = none →
      processItems env flags video [it] w0 = (none, w1) →
      ∃ w2, processItems env flags video [it] w1 = (none, w2)
        ∧ w2.files = w1.files ∧ transfers w2 = transfers w0 + 1) := by
  constructor
  · intro w node rest hf hn
    obtain ⟨h1, h2, h3, h4⟩ := process_existing env flags it u node w video rest hu hf hn
    refine ⟨h1, h2, h3, h4, rfl, ?_, skipped_transfers _ _⟩
    simp [skipped, World.emit]
  · intro w0 w1 hf h1
    obtain ⟨⟨data, a, t, hfile⟩, htr⟩ := first_run env flags it u w0 w1 video hu hf h1
    obtain ⟨-, -, -, h4⟩ := process_existing env flags it u _ w1 video [] hu hfile
      (by intro e h; cases h)
    refine ⟨skipped w1 (targetName env flags it.ID u.Path), ?_, rfl, ?_⟩
    · rw [h4]; rfl
    · rw [skipped_transfers, htr]

theorem idempotent_fetch_witness :
    ∃ w1 w2, processItems demoEnv decFlags true [⟨"1600000000000000000", "/v/clip.mp4"⟩] emptyWorld
        = (none, w1)
      ∧ processItems demoEnv decFlags true [⟨"1600000000000000000", "/v/clip.mp4"⟩] w1 = (none, w2)
      ∧ w2.files = w1.files ∧ transfers w2 = transfers emptyWorld + 1 := by
  have h1 : processItems demoEnv decFlags true [⟨"1600000000000000000", "/v/clip.mp4"⟩] emptyWorld
      = (none, (processItems demoEnv decFlags true [⟨"1600000000000000000", "/v/clip.mp4"⟩]
          emptyWorld).2) := by decide
  obtain ⟨w2, h2, h3, h4⟩ := (idempotent_fetch demoEnv decFlags
    ⟨"1600000000000000000", "/v/clip.mp4"⟩ ⟨"/v/clip.mp4", "", ""⟩ true rfl).2 emptyWorld _
    (by decide) h1
  exact ⟨_, w2, h1, h2, h3, h4⟩

theorem Grows.refl (w : World) : Grows w w := fun _ he => Or.inl he

theorem Grows.trans {a b c : World} (h1 : Grows a b) (h2 : Grows b c) : Grows a c := by
  intro e he
  rcases h2 e he with h | h
  · exact h1 e h
  · exact Or.inr h

theorem Grows.emit {a b : World} (h : Grows a b) (e : Event) (he : e.conflicting = false) :
    Grows a (b.emit e) := by
  intro x hx
  simp only [World.emit, List.mem_append, List.mem_singleton] at hx
  rcases hx with hx | hx
  · exact h x hx
  · subst hx; exact Or.inr he

theorem Grows.put {a b : World} (h : Grows a b) (name : String) (node : Node) :
    Grows a (b.put name node) := h

theorem download_grows (env : Env) (flags : Flags) (m : Media) (w : World) :
    Grows w (download env flags m w).2 := by
  unfold download
  cases m.url with
  | none => exact Grows.refl _
  | some u =>
    dsimp only
    cases List.lookup (env.pathJoin flags.output (m.id ++ Ext u.Path)) w.files with
    | some node =>
      cases node <;> dsimp only <;>
        repeat (first | exact Grows.refl _ | refine Grows.emit ?_ _ rfl | refine Grows.put ?_ _ _)
    | none =>
      dsimp only
      cases env.httpGet (env.urlString u) with
      | error e =>
        dsimp only
        repeat (first | exact Grows.refl _ | refine Grows.emit ?_ _ rfl | refine Grows.put ?_ _ _)
      | ok body =>
        dsimp only
        cases env.createErr (env.pathJoin flags.output (m.id ++ Ext u.Path)) with
        | some e =>
          dsimp only
          repeat (first | exact Grows.refl _ | refine Grows.emit ?_ _ rfl | refine Grows.put ?_ _ _)
        | none =>
          dsimp only
          cases body.copyErr <;> dsimp only <;>
            repeat (first | exact Grows.refl _ | refine Grows.emit ?_ _ rfl | refine Grows.put ?_ _ _)

theorem processPhoto_grows (env : Env) (flags : Flags) (m : Media) (w : World) :
    Grows w (processPhoto env flags m w).2 := by
  unfold processPhoto
  split
  · exact Grows.refl _
  · exact download_grows _ _ _ _

theorem processVideo_grows (env : Env) (flags : Flags) (m : Media) (w : World) :
    Grows w (processVideo env flags m w).2 := by
  have hd := download_grows env flags m w
  unfold processVideo
  generalize download env flags m w = r at hd
  obtain ⟨res, wd⟩ := r
  dsimp only at hd ⊢
  cases res with
  | error f => exact hd
  | ok name =>
    cases name with
    | none => exact hd
    | some name =>
      dsimp only
      cases List.lookup name wd.files with
      | none =>
        dsimp only
        repeat (first | exact hd | refine Grows.emit ?_ _ rfl | refine Grows.put ?_ _ _)
      | some node =>
        cases node with
        | dir =>
          dsimp only
          repeat (first | exact hd | refine Grows.emit ?_ _ rfl | refine Grows.put ?_ _ _)
        | inaccessible e =>
          dsimp only
          repeat (first | exact hd | refine Grows.emit ?_ _ rfl | refine Grows.put ?_ _ _)
        | file data a t =>
          dsimp only
          cases env.decodeMP4 data with
          | error e =>
            dsimp only
            repeat (first | exact hd | refine Grows.emit ?_ _ rfl | refine Grows.put ?_ _ _)
          | ok f =>
            dsimp only
            cases f.Moov with
            | none =>
              dsimp only
              repeat (first | exact hd | refine Grows.emit ?_ _ rfl | refine Grows.put ?_ _ _)
            | some moov =>
              dsimp only
              cases moov.Mvhd with
              | none =>
                dsimp only
                repeat (first | exact hd | refine Grows.emit ?_ _ rfl | refine Grows.put ?_ _ _)
              | some h =>
                dsimp only
                cases env.createErr name with
                | some e =>
                  dsimp only
                  repeat (first | exact hd | refine Grows.emit ?_ _ rfl | refine Grows.put ?_ _ _)
                | none =>
                  dsimp only
                  split <;>
                    repeat (first | exact hd | refine Grows.emit ?_ _ rfl | refine Grows.put ?_ _ _)

theorem fixTimestamp_grows (m : Media) (name : String) (w : World) :
    Grows w (fixTimestamp m name w).2 := by
  unfold fixTimestamp
  dsimp only
  cases List.lookup name w.files with
  | none =>
    dsimp only
    repeat (first | exact Grows.refl _ | refine Grows.emit ?_ _ rfl | refine Grows.put ?_ _ _)
  | some node =>
    cases node <;> dsimp only <;>
      repeat (first | exact Grows.refl _ | refine Grows.emit ?_ _ rfl | refine Grows.put ?_ _ _)

theorem processItems_grows (env : Env) (flags : Flags) (video : Bool) (items : List Item)
    (w : World) : Grows w (processItems env flags video items w).2 := by
  induction items generalizing w with
  | nil => exact Grows.refl _
  | cons it rest ih =>
    have hstep : Grows w (if video then processVideo env flags (newMedia env it.ID it.URL) w
        else processPhoto env flags (newMedia env it.ID it.URL) w).2 := by
      cases video
      · exact processPhoto_grows _ _ _ _
      · exact processVideo_grows _ _ _ _
    unfold processItems
    dsimp only
    generalize (if video then processVideo env flags (newMedia env it.ID it.URL) w
        else processPhoto env flags (newMedia env it.ID it.URL) w) = r at hstep
    obtain ⟨res, w1⟩ := r
    dsimp only at hstep ⊢
    cases res with
    | error f => exact hstep
    | ok name =>
      cases name with
      | none => exact Grows.trans hstep (ih w1)
      | some name =>
        dsimp only
        have hfix := fixTimestamp_grows (newMedia env it.ID it.URL) name w1
        generalize fixTimestamp (newMedia env it.ID it.URL) name w1 = r2 at hfix
        obtain ⟨err, w2⟩ := r2
        dsimp only at hfix ⊢
        cases err with
        | some e => exact Grows.trans hstep hfix
        | none => exact Grows.trans hstep (Grows.trans hfix (ih w2))

theorem processTweets_grows (env : Env) (flags : Flags) (tweets : List Tweet) (w : World) :
    Grows w (processTweets env flags tweets w).2 := by
  induction tweets generalizing w with
  | nil => exact Grows.refl _
  | cons tw rest ih =>
    unfold processTweets
    cases tw.Error with
    | some e => exact Grows.refl _
    | none =>
      dsimp only
      cases tw.IsRetweet with
      | true => simp only [if_true]; exact ih w
      | false =>
        simp only [Bool.false_eq_true, if_false]
        have hp := processItems_grows env flags false tw.Photos w
        generalize processItems env flags false tw.Photos w = r1 at hp
        obtain ⟨e1, w1⟩ := r1
        dsimp only at hp ⊢
        cases e1 with
        | some f => exact hp
        | none =>
          dsimp only
          have hv := processItems_grows env flags true tw.Videos w1
          generalize processItems env flags true tw.Videos w1 = r2 at hv
          obtain ⟨e2, w2⟩ := r2
          dsimp only at hv ⊢
          cases e2 with
          | some f => exact Grows.trans hp hv
          | none => exact Grows.trans hp (Grows.trans hv (ih w2))

theorem processUser_grows (env : Env) (flags : Flags) (user : String) (w : World)
    (hmode : ¬ (flags.decremental = true ∧ flags.incremental = true)) :
    Grows w (processUser env flags user w).2 := by
  have henter : (Event.enter user flags.decremental flags.incremental).conflicting = false := by
    cases hd : flags.decremental <;> cases hi : flags.incremental <;> simp_all [Event.conflicting]
  have h0 : Grows w (w.emit (Event.enter user flags.decremental flags.incremental)) :=
    Grows.emit (Grows.refl w) _ henter
  have h1 : Grows w (if flags.decremental = true ∨ flags.incremental = true then
      (w.emit (Event.enter user flags.decremental flags.incremental)).emit
        (Event.readDir flags.output)
      else w.emit (Event.enter user flags.decremental flags.incremental)) := by
    split
    · exact Grows.emit h0 _ rfl
    · exact h0
  unfold processUser
  dsimp only
  cases planQuery flags user (env.readDir w.files flags.output) with
  | error e => exact h1
  | ok q =>
    dsimp only
    exact Grows.trans (Grows.emit h1 (Event.search _ _) rfl) (processTweets_grows _ _ _ _)

theorem runUsers_grows (env : Env) (flags : Flags) (baseDir : String) (users : List String)
    (w : World) (hmode : ¬ (flags.decremental = true ∧ flags.incremental = true)) :
    Grows w (runUsers env flags baseDir users w).2 := by
  induction users generalizing w with
  | nil => exact Grows.refl _
  | cons user rest ih =>
    unfold runUsers
    dsimp only
    have h1 : Grows w (w.emit (Event.mkdirAll (env.pathJoin baseDir user))) :=
      Grows.emit (Grows.refl w) _ rfl
    cases env.mkdirErr (env.pathJoin baseDir user) with
    | some e => exact h1
    | none =>
      dsimp only
      have hp := processUser_grows env { flags with output := env.pathJoin baseDir user } user
        (w.emit (Event.mkdirAll (env.pathJoin baseDir user))) hmode
      generalize processUser env { flags with output := env.pathJoin baseDir user } user
        (w.emit (Event.mkdirAll (env.pathJoin baseDir user))) = r at hp
      obtain ⟨res, w2⟩ := r
      dsimp only at hp ⊢
      cases res with
      | none => exact Grows.trans h1 (Grows.trans hp (ih w2))
      | some f =>
        cases f with
        | error e => exact Grows.trans h1 hp
        | nilDeref => exact Grows.trans h1 hp

/-- C9: when both `--decremental` and `--incremental` are selected, `main` ends with the
fatal configuration error and leaves the world as it was: no login, no directory created
or listed, no download; and in every run, each call of `processUser` that `main` makes
runs with at most one of the two modes selected. -/
theorem conflicting_modes (env : Env) (flags : Flags) (args : List String) (w : World) :
    (flags.decremental = true ∧ flags.incremental = true →
      main env flags args w
        = (Exit.fatal "both --decremental and --incremental is specified", w))
    ∧ (∀ user d i, Event.enter user d i ∈ (main env flags args w).2.trace →
        Event.enter user d i ∈ w.trace ∨ ¬ (d = true ∧ i = true)) := by
  constructor
  · intro h
    unfold main
    rw [if_pos h]
  · intro user d i hmem
    have hg : Grows w (main env flags args w).2 := by
      unfold main
      split
      · exact Grows.refl _
      · rename_i hmode
        dsimp only
        cases env.loginErr with
        | some e => exact Grows.emit (Grows.refl w) _ rfl
        | none =>
          exact Grows.trans (Grows.emit (Grows.refl w) Event.login rfl)
            (runUsers_grows _ _ _ _ _ hmode)
    rcases hg _ hmem with h | h
    · exact Or.inl h
    · right
      rintro ⟨rfl, rfl⟩
      simp [Event.conflicting] at h

/-- The value `ParseInt` returns together with an error: `0` with a syntax error, the
nearest `int64` bound with a range error. -/
theorem ParseInt_error_value (s : String) (e : NumError) (h : (ParseInt s).2 = some e) :
    (e = NumError.ErrSyntax ∧ (ParseInt s).1 = 0)
    ∨ (e = NumError.ErrRange
        ∧ ((ParseInt s).1 = 9223372036854775807 ∨ (ParseInt s).1 = -9223372036854775808)) := by
  unfold ParseInt at h ⊢
  split at h
  · simp at h; exact Or.inl ⟨h.symm, by simp⟩
  · dsimp only at h ⊢
    split at h
    · simp at h; exact Or.inl ⟨h.symm, by simp⟩
    · split at h
      · simp at h; exact Or.inr ⟨h.symm, by simp [*]⟩
      · split at h
        · simp at h
          rename_i h1 h2
          right
          refine ⟨h.symm, Or.inr ?_⟩
          rw [if_neg h1, if_pos h2]
        · simp at h

/-- C3 (as amended): an id that `ParseInt` rejects is not reported.  `newMedia` still
returns a timestamp, derived from `0` after a syntax error and from the nearest `int64`
bound after a range error.  In both inner loops of `processUser` the item of such an id is
processed like any other: when it is not in place and its steps succeed (for a photo the
transfer and the copy; for a video also the decoding of the container, which must have a
movie header, and its rewriting), the file is stored under that timestamp (for a video,
as the patched container) and the loop goes on with the next item. -/
theorem malformed_id_accepted (env : Env) (flags : Flags) (it : Item) (rest : List Item)
    (w : World) (u : URL) (e : NumError)
    (hbad : (ParseInt it.ID).2 = some e)
    (hu : env.urlParse it.URL = some u)
    (hf : w.files.lookup (targetName env flags it.ID u.Path) = none)
    (hcreate : env.createErr (targetName env flags it.ID u.Path) = none) :
    ((e = NumError.ErrSyntax
        ∧ (newMedia env it.ID it.URL).ts = ⟨1288834974, 657000000, env.Local⟩)
      ∨ (e = NumError.ErrRange
        ∧ ((newMedia env it.ID it.URL).ts = ⟨3487858230, 208000000, env.Local⟩
          ∨ (newMedia env it.ID it.URL).ts = ⟨-910188281, 105000000, env.Local⟩)))
    ∧ (∀ body : Body,
        env.httpGet (env.urlString { u with RawQuery := env.queryWithOrig u.RawQuery })
          = Except.ok body →
        body.copyErr = none →
        ∃ w', processItems env flags false (it :: rest) w = processItems env flags false rest w'
          ∧ w'.files.lookup (targetName env flags it.ID u.Path)
            = some (Node.file body.data (newMedia env it.ID it.URL).ts
                (newMedia env it.ID it.URL).ts))
    ∧ (∀ (body : Body) (f : MP4File) (moov : Moov) (h : Mvhd),
        env.httpGet (env.urlString u) = Except.ok body →
        body.copyErr = none →
        env.decodeMP4 body.data = Except.ok f → f.Moov = some moov → moov.Mvhd = some h →
        (env.encodeMP4
          (setHeaderTimes f moov h (mvhdSeconds (newMedia env it.ID it.URL)))).copyErr = none →
        ∃ w', processItems env flags true (it :: rest) w = processItems env flags true rest w'
          ∧ w'.files.lookup (targetName env flags it.ID u.Path)
            = some (Node.file
                (env.encodeMP4
                  (setHeaderTimes f moov h (mvhdSeconds (newMedia env it.ID it.URL)))).data
                (newMedia env it.ID it.URL).ts (newMedia env it.ID it.URL).ts)) := by
  refine ⟨?_, ?_, ?_⟩
  · rw [newMedia_ts]
    rcases ParseInt_error_value it.ID e hbad with ⟨h1, h2⟩ | ⟨h1, h2 | h2⟩
    · left; refine ⟨h1, ?_⟩; rw [h2]; norm_num
    · right; refine ⟨h1, Or.inl ?_⟩; rw [h2]; norm_num
    · right; refine ⟨h1, Or.inr ?_⟩; rw [h2]; norm_num
  · intro body hget hcopy
    unfold targetName at hf hcreate ⊢
    refine ⟨?w, ?h1, ?h2⟩
    case h1 =>
      simp only [processItems, Bool.false_eq_true, if_false, processPhoto, newMedia_url, hu,
        download, newMedia_id, hf, hget, hcreate, hcopy]
      rw [fixTimestamp_file _ _ _ body.data env.now env.now (lookup_put_self _ _ _)]
      dsimp only
      exact rfl
    case h2 => exact lookup_put_self _ _ _
  · intro body f moov h hget hcopy hdec hmoov hmvhd henc
    unfold targetName at hf hcreate ⊢
    refine ⟨?wv, ?hv1, ?hv2⟩
    case hv1 =>
      have hlook := lookup_put_self
        ((((w.emit (Event.stat (env.pathJoin flags.output (it.ID ++ Ext u.Path)))).emit
          (Event.logged
            ("downloading `" ++ env.pathJoin flags.output (it.ID ++ Ext u.Path) ++ "`"))).emit
          (Event.get (env.urlString u))).emit
          (Event.create (env.pathJoin flags.output (it.ID ++ Ext u.Path))))
        (env.pathJoin flags.output (it.ID ++ Ext u.Path))
        (Node.file body.data env.now env.now)
      unfold setHeaderTimes at henc
      simp only [processItems, if_true, processVideo, newMedia_url, hu,
        download, newMedia_id, hf, hget, hcreate, hcopy, hlook, hdec, hmoov, hmvhd, henc]
      rw [fixTimestamp_file _ _ _ _ env.now env.now (lookup_put_self _ _ _)]
      dsimp only
      exact rfl
    case hv2 => exact lookup_put_self _ _ _

theorem malformed_id_accepted_witness :
    (ParseInt "not-a-number").2 = some NumError.ErrSyntax
    ∧ (∃ w', processItems badIdEnv plainFlags false
          [⟨"not-a-number", "https://img.example/a.jpg"⟩] emptyWorld
        = processItems badIdEnv plainFlags false [] w'
      ∧ w'.files.lookup (targetName badIdEnv plainFlags "not-a-number" "https://img.example/a.jpg")
        = some (Node.file [1, 2, 3]
            (newMedia badIdEnv "not-a-number" "https://img.example/a.jpg").ts
            (newMedia badIdEnv "not-a-number" "https://img.example/a.jpg").ts))
    ∧ (∃ w', processItems badIdEnv plainFlags true
          [⟨"not-a-number", "https://img.example/a.jpg"⟩] emptyWorld
        = processItems badIdEnv plainFlags true [] w'
      ∧ w'.files.lookup (targetName badIdEnv plainFlags "not-a-number" "https://img.example/a.jpg")
        = some (Node.file [3371679774, 3371679774]
            (newMedia badIdEnv "not-a-number" "https://img.example/a.jpg").ts
            (newMedia badIdEnv "not-a-number" "https://img.example/a.jpg").ts)) :=
  ⟨by decide,
    (malformed_id_accepted badIdEnv plainFlags
      ⟨"not-a-number", "https://img.example/a.jpg"⟩ [] emptyWorld
      ⟨"https://img.example/a.jpg", "", ""⟩ NumError.ErrSyntax
      (by decide) rfl (by decide) rfl).2.1 ⟨[1, 2, 3], none⟩ rfl rfl,
    (malformed_id_accepted badIdEnv plainFlags
      ⟨"not-a-number", "https://img.example/a.jpg"⟩ [] emptyWorld
      ⟨"https://img.example/a.jpg", "", ""⟩ NumError.ErrSyntax
      (by decide) rfl (by decide) rfl).2.2 ⟨[1, 2, 3], none⟩
      ⟨some ⟨some ⟨0, 0, []⟩, []⟩, [1, 2, 3]⟩ ⟨some ⟨0, 0, []⟩, []⟩ ⟨0, 0, []⟩
      rfl rfl rfl rfl rfl rfl⟩

/-- C3 (as stated) fails: the id `not-a-number` is not a decimal number, yet no error is
reported for it and nothing stops the run: `newMedia` gives it the timestamp of id `0`
(1288834974657 ms after the Unix epoch), the photo is fetched and stored with that
modification time, and `main` ends normally. -/
theorem malformed_id_counterexample :
    ¬ (∀ c ∈ "not-a-number".toList, IsDigit c)
    ∧ ParseInt "not-a-number" = (0, some NumError.ErrSyntax)
    ∧ (newMedia badIdEnv "not-a-number" "https://img.example/a.jpg").ts
        = ⟨1288834974, 657000000, UTC⟩
    ∧ (main badIdEnv plainFlags ["alice"] emptyWorld).1 = Exit.ok
    ∧ (main badIdEnv plainFlags ["alice"] emptyWorld).2.files.lookup "out/alice/not-a-number.jpg"
        = some (Node.file [1, 2, 3] ⟨1288834974, 657000000, UTC⟩ ⟨1288834974, 657000000, UTC⟩) := by
  decide

end Twget
